import Mathlib

/-!
Verification of the audio-analysis core: shallow embedding of the
analysis modules (tone synthesis, THD, compression-curve estimation,
attack/release timing, signal alignment, gain matching, residual
metrics) and proofs of the specified properties.

Modelling conventions, used throughout:
  * float samples are modelled as real numbers (exact arithmetic);
    concrete instances are settled by symbolic evaluation;
  * a float NaN sentinel in a result field is modelled as `none` of an
    `Option` type;
  * Python `int(x)` on a nonnegative product such as `fs * 0.25` is
    modelled as exact floor (natural division);
  * numpy reductions on empty arrays (mean of an empty slice) are
    modelled as `0/0 = 0`; every theorem below that touches such a
    reduction carries hypotheses keeping the relevant slices nonempty,
    which is where the float code is NaN-free as well;
  * `np.polyfit(x, y, 1)` is modelled by the closed-form least-squares
    solution (covariance over variance), which is what the least-squares
    fit computes whenever the x values are not all equal.
-/

open scoped Classical

noncomputable section

/-! ## Generic numeric helpers shared by the analysis modules -/

/-- Arithmetic mean of a list, `np.mean` (empty list gives `0/0 = 0`). -/
def npMean (l : List ℝ) : ℝ := l.sum / l.length

/-- Mean of the squares of a list, `np.mean(x ** 2)`. -/
def meanSq (l : List ℝ) : ℝ := ((l.map (fun v => v ^ 2)).sum) / l.length

/-- Maximum of a list, `np.max` on a nonempty array (junk value 0 on []). -/
def listMax : List ℝ → ℝ
  | [] => 0
  | [x] => x
  | x :: y :: tl => max x (listMax (y :: tl))

/-- Minimum of a list, `np.min` on a nonempty array (junk value 0 on []). -/
def listMin : List ℝ → ℝ
  | [] => 0
  | [x] => x
  | x :: y :: tl => min x (listMin (y :: tl))

/-- First index of the minimal element, `np.argmin` (first occurrence). -/
def argminL : List ℝ → ℕ
  | [] => 0
  | [_] => 0
  | x :: y :: tl => if x ≤ listMin (y :: tl) then 0 else argminL (y :: tl) + 1

/-- Index of the entry of `l` nearest to `t`: `np.argmin(np.abs(l - t))`. -/
def argminDist (l : List ℝ) (t : ℝ) : ℕ := argminL (l.map (fun v => |v - t|))

/-- Sum of the slice `l[a:b]` (Python slice semantics: empty when `b ≤ a`). -/
def sumSlice (l : List ℝ) (a b : ℕ) : ℝ := ((l.drop a).take (b - a)).sum

/-- Indexing with zero outside the array, used to state sliding windows. -/
def getZ (l : List ℝ) (j : ℤ) : ℝ := if j < 0 then 0 else l.getD j.toNat 0

/-- Sorted copy of a list (`np.sort`, a comparison sort). -/
def npSort (l : List ℝ) : List ℝ := l.insertionSort (· ≤ ·)

/-- Median, `np.median`: mean of the two middle entries of the sorted copy
for even length, the middle entry for odd length (junk value 0 on []). -/
def npMedian (l : List ℝ) : ℝ :=
  let s := npSort l
  let n := l.length
  if n = 0 then 0
  else if n % 2 = 1 then s.getD (n / 2) 0
  else (s.getD (n / 2 - 1) 0 + s.getD (n / 2) 0) / 2

/-! ## Tone synthesis (`compressor.build_stepped_tone`) -/

/-- Metadata of the stepped-amplitude sweep (`meta` dictionary). -/
structure SteppedMeta where
  seg_samples : ℕ
  gap_samples : ℕ
  amps : List ℝ
  trim_lead : ℕ
  trim_tail : ℕ

/-- The stepped sweep: the synthesized signal plus its metadata. -/
structure SteppedTone where
  signal : List ℝ
  meta : SteppedMeta

/-- One tone segment of the sweep: `min(a, protect) * sin(2 pi f t)` sampled on
`linspace(0, 0.25, int(fs*0.25), endpoint=False)`, so `t_j = j * 0.25 / segN`. -/
def segSine (freq : ℝ) (fs : ℕ) (ampMax a : ℝ) : List ℝ :=
  (List.range (fs / 4)).map
    (fun (j : ℕ) => min a ampMax * Real.sin (2 * Real.pi * freq * (j * ((0.25 : ℝ) / (fs / 4 : ℕ)))))

/-- `build_stepped_tone(freq, fs, amp_max)`: 36 amplitudes
`linspace(0.05, amp_max, 36)`, each a 0.25 s sine segment (amplitude clamped to
`amp_max`) followed by a 0.05 s gap of zeros; trim counts `int(0.03*fs)` and
`int(0.01*fs)` recorded in the metadata. -/
def build_stepped_tone (freq : ℝ) (fs : ℕ) (ampMax : ℝ) : SteppedTone :=
  let segN := fs / 4
  let gapN := fs / 20
  let amps := (List.range 36).map (fun (i : ℕ) => (0.05 : ℝ) + i * ((ampMax - 0.05) / 35))
  { signal := (amps.map (fun a => segSine freq fs ampMax a ++ List.replicate gapN (0 : ℝ))).flatten
    meta :=
      { seg_samples := segN
        gap_samples := gapN
        amps := amps
        trim_lead := 3 * fs / 100
        trim_tail := fs / 100 } }

/-- C7: `build_stepped_tone` produces exactly 36 amplitudes linearly spaced
from 0.05 to `ampMax`; the signal is the concatenation, one block per
amplitude, of `int(0.25*fs)` sine samples at the clamped amplitude followed by
`int(0.05*fs)` zeros, so its total length is `36 * (fs/4 + fs/20)`; every
clamped amplitude is at most `ampMax`; and the metadata records
`trim_lead = int(0.03*fs)` and `trim_tail = int(0.01*fs)`. -/
theorem build_stepped_tone_spec (freq : ℝ) (fs : ℕ) (ampMax : ℝ) :
    (build_stepped_tone freq fs ampMax).meta.amps
        = (List.range 36).map (fun (i : ℕ) => (0.05 : ℝ) + i * ((ampMax - 0.05) / 35)) ∧
    (build_stepped_tone freq fs ampMax).meta.amps.length = 36 ∧
    (build_stepped_tone freq fs ampMax).meta.seg_samples = fs / 4 ∧
    (build_stepped_tone freq fs ampMax).meta.gap_samples = fs / 20 ∧
    (build_stepped_tone freq fs ampMax).meta.trim_lead = 3 * fs / 100 ∧
    (build_stepped_tone freq fs ampMax).meta.trim_tail = fs / 100 ∧
    (build_stepped_tone freq fs ampMax).signal
        = ((build_stepped_tone freq fs ampMax).meta.amps.map
            (fun a => segSine freq fs ampMax a ++ List.replicate (fs / 20) (0 : ℝ))).flatten ∧
    (∀ a : ℝ, (segSine freq fs ampMax a).length = fs / 4) ∧
    (build_stepped_tone freq fs ampMax).signal.length = 36 * (fs / 4 + fs / 20) ∧
    List.Forall (fun a => min a ampMax ≤ ampMax) (build_stepped_tone freq fs ampMax).meta.amps := by
  have hseg : ∀ a : ℝ, (segSine freq fs ampMax a).length = fs / 4 := by
    intro a
    simp only [segSine, List.length_map, List.length_range]
  refine ⟨rfl, ?_, rfl, rfl, rfl, rfl, rfl, hseg, ?_, ?_⟩
  · show ((List.range 36).map _).length = 36
    rw [List.length_map, List.length_range]
  · have hlen : ∀ a : ℝ,
        ((fun a => segSine freq fs ampMax a ++ List.replicate (fs / 20) (0 : ℝ)) a).length
          = fs / 4 + fs / 20 := by
      intro a
      rw [List.length_append, hseg a, List.length_replicate]
    simp only [build_stepped_tone]
    rw [List.length_flatten, List.map_map, List.map_map]
    have hconst :
        List.map ((List.length ∘ fun a =>
            segSine freq fs ampMax a ++ List.replicate (fs / 20) (0 : ℝ)) ∘
          fun (i : ℕ) => (0.05 : ℝ) + i * ((ampMax - 0.05) / 35)) (List.range 36)
          = List.map (fun _ : ℕ => fs / 4 + fs / 20) (List.range 36) :=
      List.map_congr_left (fun a _ => by
        simp only [Function.comp_apply]
        exact hlen _)
    rw [hconst, List.map_const', List.sum_replicate, List.length_range, smul_eq_mul]
  · rw [List.forall_iff_forall_mem]
    intro a _
    exact min_le_right a ampMax

/-! ## RMS envelope and attack/release timing (`attack_release.py`) -/

/-- `envelope_rms(sig, fs, win_ms)`: with `win = int(max(1, fs*win_ms/1000))`,
pad the squared signal by `win` zeros on both sides, take the cumulative sum
and return `sqrt((cumsum[2*win:] - cumsum[:-2*win]) / max(2*win, 1))`.  numpy
`cumsum` is inclusive (`cumsum[j]` sums the first `j+1` entries), so entry `i`
is modelled as the sum of the first `i + 2*win + 1` padded squares minus the
sum of the first `i + 1`.  The source reduces a 2-D input to channel 0 first;
the model takes the mono channel directly. -/
def envelope_rms (sig : List ℝ) (fs : ℕ) (winMs : ℝ) : List ℝ :=
  let win : ℕ := ⌊max 1 ((fs : ℝ) * winMs / 1000)⌋₊
  let padded := List.replicate win (0 : ℝ) ++ sig.map (fun v => v ^ 2) ++ List.replicate win 0
  (List.range sig.length).map (fun (i : ℕ) =>
    Real.sqrt (((padded.take (i + 2 * win + 1)).sum - (padded.take (i + 1)).sum)
      / (max (2 * win) 1 : ℕ)))

/-- The sliding-window RMS exactly as the claim words it: entry `i` averages
the squared samples `sig[i-win .. i+win-1]`, out-of-range samples taken as 0. -/
def envelopeRmsClaim (sig : List ℝ) (fs : ℕ) (winMs : ℝ) : List ℝ :=
  let win : ℕ := max 1 ⌊(fs : ℝ) * winMs / 1000⌋₊
  (List.range sig.length).map (fun (i : ℕ) =>
    Real.sqrt ((∑ t ∈ Finset.range (2 * win), getZ sig ((i : ℤ) + t - win) ^ 2)
      / (2 * win)))

/-- The window the implementation actually computes: entry `i` averages the
squared samples `sig[i-win+1 .. i+win]` (one step later than the claim). -/
def envelopeRmsDirect (sig : List ℝ) (win : ℕ) (i : ℕ) : ℝ :=
  Real.sqrt ((∑ t ∈ Finset.range (2 * win), getZ sig ((i : ℤ) + 1 + t - win) ^ 2)
    / (2 * win))

lemma take_succ_sum (l : List ℝ) (k : ℕ) :
    (l.take (k + 1)).sum = (l.take k).sum + l.getD k 0 := by
  rw [List.take_succ, List.sum_append]
  congr 1
  rcases h : l[k]? with _ | v
  · simp [List.getD_eq_getElem?_getD, h]
  · simp [List.getD_eq_getElem?_getD, h]

lemma take_sum_sub (l : List ℝ) (a b : ℕ) :
    (l.take (a + b)).sum - (l.take a).sum = ∑ t ∈ Finset.range b, l.getD (a + t) 0 := by
  induction b with
  | zero => simp
  | succ b ih =>
      rw [show a + (b + 1) = (a + b) + 1 from rfl, take_succ_sum, Finset.sum_range_succ, ← ih]
      ring

lemma getD_replicate_zero (w j : ℕ) : (List.replicate w (0 : ℝ)).getD j 0 = 0 := by
  rcases lt_or_ge j w with h | h
  · rw [List.getD_eq_getElem] <;> simp [h]
  · rw [List.getD_eq_default]
    simpa using h

lemma getD_map_sq (l : List ℝ) (i : ℕ) :
    (l.map (fun v => v ^ 2)).getD i 0 = l.getD i 0 ^ 2 := by
  rcases lt_or_ge i l.length with h | h
  · rw [List.getD_eq_getElem, List.getD_eq_getElem l 0 h] <;> simp [h]
  · rw [List.getD_eq_default, List.getD_eq_default l] <;> simp [h]

lemma getD_map_range (f : ℕ → ℝ) (n i : ℕ) (hi : i < n) :
    ((List.range n).map f).getD i 0 = f i := by
  rw [List.getD_eq_getElem _ _ (by rw [List.length_map, List.length_range]; exact hi)]
  rw [List.getElem_map, List.getElem_range]

lemma padded_getD (sig : List ℝ) (w j : ℕ) :
    (List.replicate w (0 : ℝ) ++ sig.map (fun v => v ^ 2) ++ List.replicate w 0).getD j 0
      = getZ sig ((j : ℤ) - w) ^ 2 := by
  rw [List.append_assoc]
  rcases lt_or_ge j w with h | h
  · rw [List.getD_append _ _ _ _ (by simpa using h), getD_replicate_zero, getZ,
      if_pos (by omega)]
    ring
  · rw [List.getD_append_right _ _ _ _ (by simpa using h)]
    rcases lt_or_ge (j - w) sig.length with h2 | h2
    · rw [List.getD_append _ _ _ _ (by simpa using h2), getD_map_sq, getZ,
        if_neg (by omega)]
      congr 2
      simp only [List.length_replicate]
      omega
    · rw [List.getD_append_right _ _ _ _ (by simpa using h2), getD_replicate_zero, getZ,
        if_neg (by omega), List.getD_eq_default]
      · ring
      · omega

lemma envelope_rms_length (sig : List ℝ) (fs : ℕ) (winMs : ℝ) :
    (envelope_rms sig fs winMs).length = sig.length := by
  simp only [envelope_rms]
  rw [List.length_map, List.length_range]

/-- C10 (amended form): the prefix-sum implementation computes, at every
index `i`, the symmetric sliding-window RMS over the samples
`sig[i-win+1 .. i+win]` (out-of-range samples zero), and returns exactly
`sig.length` entries. -/
theorem envelope_rms_eq_direct (sig : List ℝ) (fs : ℕ) (winMs : ℝ) (i : ℕ)
    (hi : i < sig.length) :
    (envelope_rms sig fs winMs).length = sig.length ∧
    (envelope_rms sig fs winMs).getD i 0
      = envelopeRmsDirect sig (⌊max 1 ((fs : ℝ) * winMs / 1000)⌋₊) i := by
  refine ⟨envelope_rms_length sig fs winMs, ?_⟩
  set w : ℕ := ⌊max 1 ((fs : ℝ) * winMs / 1000)⌋₊ with hw
  have hw1 : 1 ≤ w := by
    rw [hw]
    exact Nat.le_floor (by simp)
  have hmax : max (2 * w) 1 = 2 * w := by omega
  simp only [envelope_rms, ← hw]
  rw [getD_map_range _ _ _ hi]
  rw [show i + 2 * w + 1 = (i + 1) + 2 * w by ring, take_sum_sub, hmax]
  unfold envelopeRmsDirect
  congr 1
  have hnum :
      (∑ t ∈ Finset.range (2 * w),
          (List.replicate w (0 : ℝ) ++ sig.map (fun v => v ^ 2) ++
            List.replicate w 0).getD (i + 1 + t) 0)
        = ∑ t ∈ Finset.range (2 * w), getZ sig ((i : ℤ) + 1 + t - w) ^ 2 := by
    refine Finset.sum_congr rfl (fun t _ => ?_)
    rw [padded_getD]
    have hidx : ((i + 1 + t : ℕ) : ℤ) - w = (i : ℤ) + 1 + t - w := by
      push_cast
      ring
    rw [hidx]
  rw [hnum]
  norm_cast

/-- C10 (counterexample): on the two-sample signal `[1, 0]` with `win = 1`,
entry 1 of `envelope_rms` is 0 (its window is `sig[1], sig[2]`, the latter out
of range), while the window `sig[i-win .. i+win-1]` claimed for entry 1 covers
`sig[0], sig[1]` and gives `sqrt(1/2)`: the implementation is not the claimed
direct form. -/
theorem envelope_rms_claim_cex :
    envelope_rms [(1 : ℝ), 0] 1000 1 ≠ envelopeRmsClaim [(1 : ℝ), 0] 1000 1 := by
  intro h
  have h1 : (envelope_rms [(1 : ℝ), 0] 1000 1).getD 1 0
      = (envelopeRmsClaim [(1 : ℝ), 0] 1000 1).getD 1 0 := by rw [h]
  have hL : (envelope_rms [(1 : ℝ), 0] 1000 1).getD 1 0 = 0 := by
    have hwin : (⌊max 1 ((1000 : ℝ) * 1 / 1000)⌋₊ : ℕ) = 1 := by norm_num
    simp only [envelope_rms, hwin]
    norm_num [List.range_succ, List.take, Real.sqrt_zero]
  have hR : (envelopeRmsClaim [(1 : ℝ), 0] 1000 1).getD 1 0 = Real.sqrt (1 / 2) := by
    have hwin : (⌊(1000 : ℝ) * 1 / 1000⌋₊ : ℕ) = 1 := by norm_num
    simp only [envelopeRmsClaim, hwin]
    norm_num [List.range_succ, Finset.sum_range_succ, getZ]
  rw [hL, hR] at h1
  have : (0 : ℝ) < Real.sqrt (1 / 2) := Real.sqrt_pos.mpr (by norm_num)
  exact absurd h1.symm (ne_of_gt this)

/-- Witness for `envelope_rms_eq_direct` at the concrete input `[1, 0]`. -/
theorem envelope_rms_eq_direct_witness :
    0 < ([(1 : ℝ), 0]).length ∧
    ((envelope_rms [(1 : ℝ), 0] 1000 1).length = ([(1 : ℝ), 0]).length ∧
      (envelope_rms [(1 : ℝ), 0] 1000 1).getD 0 0
        = envelopeRmsDirect [(1 : ℝ), 0] (⌊max 1 ((1000 : ℝ) * 1 / 1000)⌋₊) 0) :=
  ⟨by norm_num, envelope_rms_eq_direct [(1 : ℝ), 0] 1000 1 0 (by norm_num)⟩

/-- Result of `attack_release_times`; a float NaN is modelled as `none`. -/
structure ARTimes where
  attack_ms : Option ℝ
  release_ms : Option ℝ
deriving DecidableEq

/-- First index at which the envelope crosses `level` (the `_crossing`
helper): first index with `x >= level` going up, `x <= level` going down;
`None` when no index qualifies. -/
def findCross (l : List ℝ) (level : ℝ) (up : Bool) : Option ℕ :=
  l.findIdx? (fun v => if up then decide (level ≤ v) else decide (v ≤ level))

/-- `attack_release_times(sig, fs, win_ms)`: RMS envelope, quartile median
levels, 10%/90% rising and 90%/10% falling crossings searched in windows
anchored one tenth before the first/third quarter boundary.  Degenerate
envelopes (fewer than 10 points, or peak below 1e-12) give NaN for both
durations; a missing crossing pair gives NaN for that duration.  A non-finite
envelope maximum, the remaining degenerate case in the source, cannot arise in
the exact-arithmetic model. -/
def attack_release_times (sig : List ℝ) (fs : ℕ) (winMs : ℝ) : ARTimes :=
  let env := envelope_rms sig fs winMs
  if env.length < 10 then ⟨none, none⟩
  else
    let n := env.length
    let q1 := n / 4
    let q3 := 3 * n / 4
    let lowLevel := npMedian (env.take q1)
    let highLevel := npMedian ((env.drop q1).take (q3 - q1))
    let tailLevel := npMedian (env.drop q3)
    let peak := listMax env
    if peak < 1e-12 then ⟨none, none⟩
    else
      let atkStartLvl := lowLevel + 0.1 * (highLevel - lowLevel)
      let atkEndLvl := lowLevel + 0.9 * (highLevel - lowLevel)
      let relStartLvl := highLevel - 0.1 * (highLevel - tailLevel)
      let relEndLvl := highLevel - 0.9 * (highLevel - tailLevel)
      let searchRise := (env.drop (q1 - n / 10)).take (q3 - (q1 - n / 10))
      let searchFall := env.drop (q3 - n / 10)
      let attack : Option ℝ :=
        match findCross searchRise atkStartLvl true, findCross searchRise atkEndLvl true with
        | some i, some j =>
            some ((((q1 - n / 10 + j : ℕ) : ℝ) - ((q1 - n / 10 + i : ℕ) : ℝ)) / fs * 1000)
        | _, _ => none
      let release : Option ℝ :=
        match findCross searchFall relStartLvl false, findCross searchFall relEndLvl false with
        | some i, some j =>
            some ((((q3 - n / 10 + j : ℕ) : ℝ) - ((q3 - n / 10 + i : ℕ) : ℝ)) / fs * 1000)
        | _, _ => none
      ⟨attack, release⟩

/-- The NaN contract of `attack_release_times`, written against the envelope
and crossing searches of the implementation: a degenerate envelope gives NaN
for both durations; otherwise each duration is NaN exactly when its crossing
pair is not found, and is a (finite) number in every other case. -/
def arTimesSpec (sig : List ℝ) (fs : ℕ) (winMs : ℝ) : Prop :=
  let env := envelope_rms sig fs winMs
  let n := env.length
  let q1 := n / 4
  let q3 := 3 * n / 4
  let lowLevel := npMedian (env.take q1)
  let highLevel := npMedian ((env.drop q1).take (q3 - q1))
  let tailLevel := npMedian (env.drop q3)
  let searchRise := (env.drop (q1 - n / 10)).take (q3 - (q1 - n / 10))
  let searchFall := env.drop (q3 - n / 10)
  (env.length < 10 ∨ listMax env < 1e-12 →
      attack_release_times sig fs winMs = ⟨none, none⟩) ∧
  (¬ env.length < 10 → ¬ listMax env < 1e-12 →
    ((attack_release_times sig fs winMs).attack_ms = none ↔
        (findCross searchRise (lowLevel + 0.1 * (highLevel - lowLevel)) true = none ∨
         findCross searchRise (lowLevel + 0.9 * (highLevel - lowLevel)) true = none)) ∧
    ((attack_release_times sig fs winMs).release_ms = none ↔
        (findCross searchFall (highLevel - 0.1 * (highLevel - tailLevel)) false = none ∨
         findCross searchFall (highLevel - 0.9 * (highLevel - tailLevel)) false = none)))

/-- C6: `attack_release_times` is total (it never aborts: it is a function
into `ARTimes`), returns NaN for both durations on a degenerate envelope
(fewer than 10 points or peak below 1e-12; a non-finite maximum cannot arise
over exact reals), returns NaN for exactly those durations whose crossing pair
is not found, and otherwise returns a number for both. -/
theorem attack_release_times_nan_spec (sig : List ℝ) (fs : ℕ) (winMs : ℝ) :
    arTimesSpec sig fs winMs := by
  unfold arTimesSpec attack_release_times
  refine ⟨?_, ?_⟩
  · intro h
    rcases h with h | h
    · rw [if_pos h]
    · by_cases h10 : (envelope_rms sig fs winMs).length < 10
      · rw [if_pos h10]
      · rw [if_neg h10, if_pos h]
  · intro h10 hpk
    rw [if_neg h10, if_neg hpk]
    constructor
    · rcases hc1 : findCross _ _ true with _ | i <;>
        rcases hc2 : findCross _ _ true with _ | j <;>
        simp [hc1, hc2]
    · rcases hc1 : findCross _ _ false with _ | i <;>
        rcases hc2 : findCross _ _ false with _ | j <;>
        simp [hc1, hc2]

/-- Witness for `attack_release_times_nan_spec`: the empty signal (whose
envelope has fewer than 10 points) yields NaN for both durations. -/
theorem attack_release_times_nan_witness :
    arTimesSpec [] 48000 10 ∧ attack_release_times [] 48000 10 = ⟨none, none⟩ :=
  ⟨attack_release_times_nan_spec [] 48000 10,
    (attack_release_times_nan_spec [] 48000 10).1
      (Or.inl (by simp [envelope_rms]))⟩

/-! ## Signal alignment (`compare.align_signals`) -/

/-- First index of the maximal element, `np.argmax` (first occurrence). -/
def argmaxL : List ℝ → ℕ
  | [] => 0
  | [_] => 0
  | x :: y :: tl => if listMax (y :: tl) ≤ x then 0 else argmaxL (y :: tl) + 1

/-- First index whose value strictly exceeds `t`
(`np.nonzero(x > t)[0][0]`), `none` when no index qualifies. -/
def firstExceed (t : ℝ) : List ℝ → Option ℕ
  | [] => none
  | v :: tl => if t < v then some 0 else (firstExceed t tl).map (· + 1)

/-- `np.convolve(mag, ones(w)/w, mode="same")` for `len(mag) >= w`: the middle
`len(mag)` entries of the full convolution, starting at offset `(w-1)/2`. -/
def convolveSame (mag : List ℝ) (w : ℕ) : List ℝ :=
  let full := (List.range (mag.length + w - 1)).map (fun (n : ℕ) =>
    ((List.range w).map (fun (k : ℕ) => (1 / (w : ℝ)) * getZ mag ((n : ℤ) - k))).sum)
  (full.drop ((w - 1) / 2)).take mag.length

/-- `_smooth_abs(x, win=256)`: absolute value, smoothed by a uniform kernel of
width 256 when the signal is at least that long. -/
def smoothAbs (x : List ℝ) : List ℝ :=
  let mag := x.map (fun v => |v|)
  if mag.length < 256 then mag else convolveSame mag 256

/-- `np.correlate(a, v, mode="full")`:
`out[n] = sum_k a[k] * v[k - n + len(v) - 1]` for `n < len(a)+len(v)-1`. -/
def correlateFull (a v : List ℝ) : List ℝ :=
  (List.range (a.length + v.length - 1)).map (fun (n : ℕ) =>
    ((List.range a.length).map (fun (k : ℕ) =>
      a.getD k 0 * getZ v ((k : ℤ) - n + v.length - 1))).sum)

/-- Onset index: first sample whose absolute value exceeds 10% of the raw
signal's peak (plus the 1e-12 epsilon), 0 when none does. -/
def onsetIdx (raw : List ℝ) : ℕ :=
  let absRaw := raw.map (fun v => |v|)
  let thresh := (0.1 : ℝ) * (listMax absRaw + 1e-12)
  match firstExceed thresh absRaw with
  | some i => i
  | none => 0

/-- Python slice `l[:s]` for an integer stop `s` that may be negative: a
negative stop wraps from the end (`len + s`), clamped at 0 below. -/
def pyTakeStop (l : List ℝ) (s : ℤ) : List ℝ :=
  if 0 ≤ s then l.take s.toNat else l.take ((l.length : ℤ) + s).toNat

/-- `align_signals(ref, target, max_lag_samples, prefer_onset)`: envelope
cross-correlation lag (restricted to a symmetric window around zero when a
bound is given), onset-difference lag on the raw signals, the onset lag
preferred when nonzero, then slicing both signals to the aligned common
length; the slice `ref[: len(ref) - lag]` follows Python semantics, wrapping
a negative stop from the end. -/
def align_signals (ref target : List ℝ) (maxLag : Option ℕ) (preferOnset : Bool) :
    List ℝ × List ℝ × ℤ :=
  let refM := smoothAbs ref
  let tgtM := smoothAbs target
  let corr := correlateFull tgtM refM
  let center : ℤ := (refM.length : ℤ) - 1
  let lagCorr : ℤ :=
    match maxLag with
    | none => (argmaxL corr : ℤ) - center
    | some m =>
        let lo : ℕ := (max 0 (center - m)).toNat
        let hi : ℕ := min corr.length (center + m + 1).toNat
        let sub := (corr.drop lo).take (hi - lo)
        (argmaxL sub : ℤ) + lo - center
  let lagOnset : ℤ := (onsetIdx target : ℤ) - onsetIdx ref
  let lag : ℤ := if preferOnset = true ∧ lagOnset ≠ 0 then lagOnset else lagCorr
  if 0 ≤ lag then
    let aRef := pyTakeStop ref ((ref.length : ℤ) - lag)
    let aTgt := (target.drop lag.toNat).take aRef.length
    let m := min aRef.length aTgt.length
    (aRef.take m, aTgt.take m, lag)
  else
    let aRef := (ref.drop (-lag).toNat).take target.length
    let aTgt := target.take aRef.length
    let m := min aRef.length aTgt.length
    (aRef.take m, aTgt.take m, lag)

/-- A unit-step reference signal: 8 zero samples, then the step to 1. -/
def stepRef : List ℝ := [0, 0, 0, 0, 0, 0, 0, 0, 1, 1, 1]

/-- The signal delayed by `d` samples: prepend `d` zeros for `d >= 0`;
advance by `-d` samples (zero-padded at the end) for `d < 0`, as the
alignment tests build their delayed targets. -/
def delayBy (d : ℤ) (l : List ℝ) : List ℝ :=
  if 0 ≤ d then List.replicate d.toNat 0 ++ l
  else (l.drop (-d).toNat) ++ List.replicate (-d).toNat 0

/-- Aligning the unit step against its copy delayed by `d` (with max-lag
bound 30, large enough to contain every tested delay) recovers lag `d`
exactly, and the aligned slices have the expected common length `len` (per
the Python negative-stop wrap of `ref[: len(ref) - lag]`) and are equal
element by element. -/
def alignRecovers (d : ℤ) (len : ℕ) : Prop :=
  (align_signals stepRef (delayBy d stepRef) (some 30) true).2.2 = d ∧
  (align_signals stepRef (delayBy d stepRef) (some 30) true).1.length = len ∧
  (align_signals stepRef (delayBy d stepRef) (some 30) true).2.1.length = len ∧
  (align_signals stepRef (delayBy d stepRef) (some 30) true).1
    = (align_signals stepRef (delayBy d stepRef) (some 30) true).2.1

set_option maxHeartbeats 4000000 in
/-- C2: for every delay d in {0, 12, -8, 20, 22}, `align_signals` on the
unit-step reference and its copy delayed by d samples returns lag d exactly
and aligned slices of the expected common length that agree element by
element (11, 10, 3, 2 and 0 samples: for d = 12 and d = 20 the negative
Python slice stop of `ref[: len(ref) - lag]` wraps from the end, leaving
10- and 2-sample slices; d = 22 wraps to the empty slice).  The d = 0 case
exercises the bounded cross-correlation search (onset lag 0 falls back to
the correlation lag); the others exercise the preferred onset path. -/
theorem align_signals_recovers_delays :
    alignRecovers 0 11 ∧ alignRecovers 12 10 ∧ alignRecovers (-8) 3 ∧
    alignRecovers 20 2 ∧ alignRecovers 22 0 := by
  have htoNat : ∀ n : ℕ, Int.toNat (Int.ofNat n) = n := fun n => rfl
  refine ⟨?_, ?_, ?_, ?_, ?_⟩
  · have htgt : delayBy 0 stepRef = stepRef := by simp [delayBy]
    have habs : smoothAbs stepRef = stepRef := by norm_num [smoothAbs, stepRef]
    have hcorr : correlateFull stepRef stepRef
        = [0, 0, 0, 0, 0, 0, 0, 0, 1, 2, 3, 2, 1, 0, 0, 0, 0, 0, 0, 0, 0] := by
      norm_num [correlateFull, stepRef, getZ, List.range_succ]
      norm_num [show Int.toNat 2 = 2 from rfl, show Int.toNat 3 = 3 from rfl,
        show Int.toNat 4 = 4 from rfl, show Int.toNat 5 = 5 from rfl,
        show Int.toNat 6 = 6 from rfl, show Int.toNat 7 = 7 from rfl,
        show Int.toNat 8 = 8 from rfl, show Int.toNat 9 = 9 from rfl,
        show Int.toNat 10 = 10 from rfl, show Int.toNat 11 = 11 from rfl,
        show Int.toNat 12 = 12 from rfl, show Int.toNat 13 = 13 from rfl,
        show Int.toNat 14 = 14 from rfl, show Int.toNat 15 = 15 from rfl,
        show Int.toNat 16 = 16 from rfl, show Int.toNat 17 = 17 from rfl,
        show Int.toNat 18 = 18 from rfl, show Int.toNat 19 = 19 from rfl,
        show Int.toNat 20 = 20 from rfl, show Int.toNat 21 = 21 from rfl]
    have honset : onsetIdx stepRef = 8 := by
      norm_num [onsetIdx, stepRef, firstExceed, listMax]
    have hlen : stepRef.length = 11 := by norm_num [stepRef]
    unfold alignRecovers
    rw [htgt]
    simp only [align_signals, habs, hcorr, honset, hlen]
    norm_num [argmaxL, listMax, pyTakeStop, show Int.toNat 11 = 11 from rfl]
    simp [hlen]
  · unfold alignRecovers
    norm_num [align_signals, delayBy, stepRef, onsetIdx, firstExceed, smoothAbs, listMax,
      List.replicate, getZ, pyTakeStop, show Int.toNat 10 = 10 from rfl, show Int.toNat 12 = 12 from rfl]
  · unfold alignRecovers
    norm_num [align_signals, delayBy, stepRef, onsetIdx, firstExceed, smoothAbs, listMax,
      List.replicate, getZ, show Int.toNat 8 = 8 from rfl]
  · unfold alignRecovers
    norm_num [align_signals, delayBy, stepRef, onsetIdx, firstExceed, smoothAbs, listMax,
      List.replicate, getZ, pyTakeStop, show Int.toNat 2 = 2 from rfl, show Int.toNat 20 = 20 from rfl]
  · unfold alignRecovers
    norm_num [align_signals, delayBy, stepRef, onsetIdx, firstExceed, smoothAbs, listMax,
      List.replicate, getZ, pyTakeStop]


/-! ## Compression-curve estimation (`compressor.compression_curve`) -/

/-- `np.polyfit(x, y, 1)` as (slope, intercept): the closed-form least-squares
solution (covariance over variance), which the fit computes whenever the x
values are not all equal. -/
def polyfit1 (xs ys : List ℝ) : ℝ × ℝ :=
  let n : ℝ := xs.length
  let xbar := xs.sum / n
  let ybar := ys.sum / n
  let sxy := ((xs.zip ys).map (fun p => (p.1 - xbar) * (p.2 - ybar))).sum
  let sxx := (xs.map (fun v => (v - xbar) ^ 2)).sum
  let a := sxy / sxx
  (a, ybar - a * xbar)

/-- Result of `compression_curve`; `thr_db` is NaN-able, hence an `Option`. -/
structure CompressionResult where
  in_db : List ℝ
  out_db : List ℝ
  gain_offset_db : ℝ
  no_compression : Bool
  thr_db : Option ℝ
  ratio : ℝ

/-- The fitted compression ratio of a result record. -/
def ratioOf : CompressionResult → ℝ
  | ⟨_, _, _, _, _, r⟩ => r

/-- Nominal per-segment input levels in dB: `20*log10(max(amp/sqrt 2, 1e-12))`. -/
def comp_in_db (meta : SteppedMeta) : List ℝ :=
  meta.amps.map (fun A => 20 * Real.logb 10 (max (A / Real.sqrt 2) 1e-12))

/-- Measured per-segment output levels in dB: slice segment `i` at
`[i*(segN+gapN), i*(segN+gapN)+segN)`, trim `trim_lead`/`trim_tail` samples,
then `20*log10(max(rms, 1e-12))`. -/
def comp_out_db (sig : List ℝ) (meta : SteppedMeta) : List ℝ :=
  (List.range meta.amps.length).map (fun (i : ℕ) =>
    let s0 := i * (meta.seg_samples + meta.gap_samples)
    let seg := (sig.drop s0).take meta.seg_samples
    let trimmed := (seg.drop meta.trim_lead).take
        (max meta.trim_lead (seg.length - meta.trim_tail) - meta.trim_lead)
    20 * Real.logb 10 (max (Real.sqrt (meanSq trimmed)) 1e-12))

/-- `compression_curve(sig, meta, fs, freq)`: per-segment RMS pairs in dB
(nominal input `amp/sqrt 2`, measured output RMS of the trimmed segment
slice, both floored at 1e-12), a global least-squares fit for the
no-compression test, and a least-squares fit on the points with
`diff < -0.5` dB for threshold and ratio. -/
def compression_curve (sig : List ℝ) (meta : SteppedMeta) (fs : ℕ) (freq : ℝ) :
    CompressionResult :=
  let inDb := comp_in_db meta
  let outDb := comp_out_db sig meta
  let diff := List.zipWith (fun o i => o - i) outDb inDb
  let aAll := (polyfit1 inDb outDb).1
  let gainOffset := npMean diff
  if |aAll - 1| < 0.05 ∧ listMax diff - listMin diff < 1 then
    ⟨inDb, outDb, gainOffset, true, none, 1⟩
  else
    let pts := (inDb.zip outDb).filter (fun p => decide (p.2 - p.1 < -0.5))
    if pts.length < 2 then
      ⟨inDb, outDb, gainOffset, true, none, 1⟩
    else
      let fit2 := polyfit1 (pts.map Prod.fst) (pts.map Prod.snd)
      ⟨inDb, outDb, gainOffset, false,
        if |1 - fit2.1| > 1e-6 then some (fit2.2 / (1 - fit2.1)) else none,
        1 / max fit2.1 1e-12⟩

/-- The classification contract of `compression_curve`: `no_compression`
holds exactly when the global fit over all 36 dB pairs has slope within 0.05
of 1 and diff spread under 1 dB, or fewer than 2 points lie in the compressed
region (`diff < -0.5` dB); in those cases threshold is NaN, ratio 1 and the
gain offset is the mean diff; otherwise ratio is `1/max(slope, 1e-12)` and
threshold `intercept/(1-slope)` of the subset fit when `|1-slope| > 1e-6`,
NaN otherwise. -/
def compressionClassSpec (sig : List ℝ) (meta : SteppedMeta) (fs : ℕ) (freq : ℝ) : Prop :=
  let r := compression_curve sig meta fs freq
  let diff := List.zipWith (fun o i => o - i) (comp_out_db sig meta) (comp_in_db meta)
  let aAll := (polyfit1 (comp_in_db meta) (comp_out_db sig meta)).1
  let condA := |aAll - 1| < 0.05 ∧ listMax diff - listMin diff < 1
  let pts := ((comp_in_db meta).zip (comp_out_db sig meta)).filter
      (fun p => decide (p.2 - p.1 < -0.5))
  let condB := pts.length < 2
  let fit2 := polyfit1 (pts.map Prod.fst) (pts.map Prod.snd)
  r.in_db = comp_in_db meta ∧
  r.out_db = comp_out_db sig meta ∧
  (r.no_compression = true ↔ (condA ∨ condB)) ∧
  ((condA ∨ condB) → r.thr_db = none ∧ ratioOf r = 1 ∧ r.gain_offset_db = npMean diff) ∧
  (¬(condA ∨ condB) →
     ratioOf r = 1 / max fit2.1 1e-12 ∧
     r.thr_db = (if |1 - fit2.1| > 1e-6 then some (fit2.2 / (1 - fit2.1)) else none) ∧
     r.gain_offset_db = npMean diff)

/-- C1: for every captured waveform and stepped-tone metadata with 36
amplitudes (long enough that every trimmed segment is a nonempty slice, the
regime in which the exact model and the float code coincide),
`compression_curve` classifies `no_compression = true` exactly when the
global least-squares fit is near-identity with small diff spread or fewer
than 2 compressed points exist; threshold/ratio/gain-offset fields follow the
classification as specified. -/
theorem compression_curve_classification (sig : List ℝ) (meta : SteppedMeta)
    (fs : ℕ) (freq : ℝ) (h36 : meta.amps.length = 36)
    (hlen : 36 * (meta.seg_samples + meta.gap_samples) ≤ sig.length)
    (htrim : meta.trim_lead + meta.trim_tail < meta.seg_samples) :
    compressionClassSpec sig meta fs freq := by
  unfold compressionClassSpec compression_curve
  dsimp only
  by_cases h1 : |(polyfit1 (comp_in_db meta) (comp_out_db sig meta)).1 - 1| < 0.05 ∧
      listMax (List.zipWith (fun o i => o - i) (comp_out_db sig meta) (comp_in_db meta)) -
        listMin (List.zipWith (fun o i => o - i) (comp_out_db sig meta) (comp_in_db meta)) < 1
  · rw [if_pos h1]
    exact ⟨rfl, rfl, ⟨fun _ => Or.inl h1, fun _ => rfl⟩,
      fun _ => ⟨rfl, rfl, rfl⟩,
      fun hn => absurd (Or.inl h1) hn⟩
  · rw [if_neg h1]
    by_cases h2 : (((comp_in_db meta).zip (comp_out_db sig meta)).filter
        (fun p => decide (p.2 - p.1 < -0.5))).length < 2
    · rw [if_pos h2]
      exact ⟨rfl, rfl, ⟨fun _ => Or.inr h2, fun _ => rfl⟩,
        fun _ => ⟨rfl, rfl, rfl⟩,
        fun hn => absurd (Or.inr h2) hn⟩
    · rw [if_neg h2]
      refine ⟨rfl, rfl, ⟨fun h => absurd h Bool.false_ne_true, fun h => ?_⟩,
        fun h => ?_, fun _ => ⟨rfl, rfl, rfl⟩⟩
      · rcases h with h | h
        · exact absurd h h1
        · exact absurd h h2
      · rcases h with h | h
        · exact absurd h h1
        · exact absurd h h2

/-- A stepped-tone metadata record with 36 unit amplitudes, `fs = 100`. -/
def witMeta : SteppedMeta := ⟨25, 5, List.replicate 36 1, 3, 1⟩

/-- Witness for `compression_curve_classification`: the zero capture of full
sweep length against `witMeta`. -/
theorem compression_curve_classification_witness :
    (witMeta.amps.length = 36 ∧
      36 * (witMeta.seg_samples + witMeta.gap_samples)
        ≤ (List.replicate 1080 (0 : ℝ)).length ∧
      witMeta.trim_lead + witMeta.trim_tail < witMeta.seg_samples) ∧
    compressionClassSpec (List.replicate 1080 (0 : ℝ)) witMeta 100 1 :=
  ⟨⟨by norm_num [witMeta], by norm_num [witMeta], by norm_num [witMeta]⟩,
   compression_curve_classification _ _ 100 1 (by norm_num [witMeta])
     (by norm_num [witMeta]) (by norm_num [witMeta])⟩


/-! ## Harmonic analysis (`thd.compute_thd`) -/

/-- A numpy float array as the analysis entry points see it: a mono vector or
a sequence of per-sample frames. -/
inductive NDArr where
  | mono (xs : List ℝ)
  | multi (rows : List (List ℝ))

/-- `np.mean` over all entries of the array (2-D arrays flatten). -/
def npMeanAll : NDArr → ℝ
  | .mono xs => xs.sum / xs.length
  | .multi rows => (rows.map List.sum).sum / ((rows.map List.length).sum : ℕ)

/-- Subtract a scalar from every entry (`sig - np.mean(sig)`). -/
def subAll : NDArr → ℝ → NDArr
  | .mono xs, c => .mono (xs.map (fun v => v - c))
  | .multi rows, c => .multi (rows.map (fun r => r.map (fun v => v - c)))

/-- `sig[:, 0]`: channel 0 of a 2-D array; a mono array is unchanged. -/
def chan0 : NDArr → List ℝ
  | .mono xs => xs
  | .multi rows => rows.map (fun r => r.headD 0)

/-- `np.hanning(M)`: `0.5 - 0.5*cos(2*pi*k/(M-1))`, the singleton `[1]` for
`M = 1` (numpy special-cases it). -/
def hanning (M : ℕ) : List ℝ :=
  if M = 1 then [1]
  else (List.range M).map (fun (k : ℕ) =>
    1 / 2 - 1 / 2 * Real.cos (2 * Real.pi * k / ((M : ℝ) - 1)))

/-- `np.fft.rfft(x, n)` for `n >= 1`: truncate or zero-pad the input to
length `n`, then return the first `n/2 + 1` DFT bins
`sum_j x_j exp(-2 pi i j k / n)`.  numpy raises `ValueError` for `n = 0`;
that abort is modeled at the call sites (`compute_thd` guards on the
effective FFT length, and the nonempty-core hypotheses keep
`_freq_response_delta` away from it), so this definition is only consulted
at `n >= 1`, where it agrees with numpy. -/
def rfft (x : List ℝ) (n : ℕ) : List ℂ :=
  let xp := x.take n ++ List.replicate (n - x.length) (0 : ℝ)
  (List.range (n / 2 + 1)).map (fun (k : ℕ) =>
    ((List.range n).map (fun (j : ℕ) =>
      ((xp.getD j 0 : ℝ) : ℂ) *
        Complex.exp ((((-2 : ℝ) * Real.pi * j * k / n : ℝ) : ℂ) * Complex.I))).sum)

/-- `np.fft.rfftfreq(n, 1/fs)`: bin `k` sits at `k*fs/n` Hz. -/
def rfftfreq (n fs : ℕ) : List ℝ :=
  (List.range (n / 2 + 1)).map (fun (k : ℕ) => k * fs / n)

/-- The window names the source compares against. -/
def hannStr : String := "hann"

/-- The legacy alias accepted for the Hann window. -/
def hanningStr : String := "hanning"

/-- The explicit no-window name. -/
def noneStr : String := "none"

/-- The message of the unsupported-window error. -/
def unsupportedWindowMsg : String := "Unsupported window"

/-- Result record of `compute_thd`.  `normalize_thd_result` is the identity
on it: the canonical keys `thd_db`/`thdn_db` are already present as floats,
so the alias merging and float coercion change nothing. -/
structure ThdResult where
  fundamental_mag : ℝ
  harmonics_dbc : List (ℕ × ℝ)
  thd_percent : ℝ
  thd_ratio : ℝ
  thd_db : ℝ
  thdn_ratio : ℝ
  thdn_db : ℝ
  freqs : List ℝ
  spectrum : List ℝ
  fs : ℕ
  fund_freq : ℝ
  nfft : ℕ
  window : Option String
  fund_band_bins : ℕ

/-- THD ratio field of a result record. -/
def thdRatioOf : ThdResult → ℝ
  | ⟨_, _, _, r, _, _, _, _, _, _, _, _, _, _⟩ => r

/-- THD+N ratio field of a result record. -/
def thdnRatioOf : ThdResult → ℝ
  | ⟨_, _, _, _, _, r, _, _, _, _, _, _, _, _⟩ => r

/-- The analysis body of `compute_thd`, after window validation: remove the
global DC mean, reduce to channel 0, window, zero-padded real FFT, zero the
DC bin, band power around the fundamental bin and each harmonic bin, THD and
THD+N ratios and dB levels (every logarithm floored by the additive 1e-12,
the fundamental power by the additive 1e-24). -/
def thdMain (arr : NDArr) (fs : ℕ) (freq : ℝ) (maxH : ℕ) (window : Option String)
    (bandBins : ℕ) (nfft : Option ℕ) : ThdResult :=
  let sig0 := chan0 (subAll arr (npMeanAll arr))
  let nfftUse := match nfft with
    | some m => if m = 0 then sig0.length else m
    | none => sig0.length
  let win := if window = some hannStr ∨ window = some hanningStr then hanning sig0.length
    else List.replicate sig0.length (1 : ℝ)
  let windowed := List.zipWith (fun a b => a * b) sig0 win
  let spec := rfft windowed nfftUse
  let freqs := rfftfreq nfftUse fs
  let mag := spec.map Complex.abs
  let power := (mag.map (fun m => m ^ 2)).set 0 0
  let fundIdx := argminDist freqs freq
  let bandB := max 1 bandBins
  let bandStart := max (fundIdx - bandB) 1
  let bandStop := min (fundIdx + bandB + 1) power.length
  let fundPower := sumSlice power bandStart bandStop + 1e-24
  let hPow := fun (h : ℕ) =>
    let idx := argminDist freqs (h * freq)
    sumSlice power (max (idx - bandB) 1) (min (idx + bandB + 1) power.length)
  let hOrders := List.range' 2 (maxH - 1)
  let powerSum := (hOrders.map hPow).sum
  let thdRatio := if 0 < fundPower then Real.sqrt (powerSum / fundPower) else 0
  let powerTotal := power.sum
  let noisePower := max (powerTotal - fundPower) 0
  let thdnRatio := if 0 < fundPower then Real.sqrt (noisePower / fundPower) else 0
  { fundamental_mag := Real.sqrt fundPower
    harmonics_dbc := hOrders.map (fun h =>
      (h, 20 * Real.logb 10
        ((if 0 < fundPower then Real.sqrt (hPow h / fundPower) else 0) + 1e-12)))
    thd_percent := thdRatio * 100
    thd_ratio := thdRatio
    thd_db := 20 * Real.logb 10 (thdRatio + 1e-12)
    thdn_ratio := thdnRatio
    thdn_db := 20 * Real.logb 10 (thdnRatio + 1e-12)
    freqs := freqs
    spectrum := mag.map (fun m => 20 * Real.logb 10 (m + 1e-12))
    fs := fs
    fund_freq := freq
    nfft := nfftUse
    window := if window = some hanningStr then some hannStr else window
    fund_band_bins := bandB }

/-- The message of numpy's `ValueError` for a non-positive FFT length. -/
def invalidNfftMsg : String := "Invalid number of FFT data points"

/-- The effective FFT length `nfft_use`: the explicit `nfft` when truthy,
else the length of the channel-0 signal. -/
def thdNfft (arr : NDArr) (nfft : Option ℕ) : ℕ :=
  let sig0 := chan0 (subAll arr (npMeanAll arr))
  match nfft with
  | some m => if m = 0 then sig0.length else m
  | none => sig0.length

/-- `compute_thd(signal, fs, freq, max_h, window, fundamental_band_bins,
nfft)`: validate the window name, then run the analysis body; with a valid
window, `np.fft.rfft(windowed, n=nfft_use)` raises numpy's `ValueError`
when the effective FFT length is 0 (an empty signal with a default or zero
`nfft`), the function's second abort. -/
def compute_thd (arr : NDArr) (fs : ℕ) (freq : ℝ) (maxH : ℕ)
    (window : Option String) (bandBins : ℕ) (nfft : Option ℕ) :
    Except String ThdResult :=
  if window = some hannStr ∨ window = some hanningStr then
    if thdNfft arr nfft = 0 then .error invalidNfftMsg
    else .ok (thdMain arr fs freq maxH window bandBins nfft)
  else if window = none ∨ window = some noneStr then
    if thdNfft arr nfft = 0 then .error invalidNfftMsg
    else .ok (thdMain arr fs freq maxH window bandBins nfft)
  else
    .error unsupportedWindowMsg

/-- C4 (counterexample): the window check is not the only abort of
`compute_thd`: on an empty signal with the valid "hann" window (and default
`nfft`), the effective FFT length is 0 and `np.fft.rfft` raises numpy's
invalid-FFT-length `ValueError`, so the call aborts although the window is
accepted. -/
theorem compute_thd_empty_cex :
    (some hannStr = some hannStr ∨ some hannStr = some hanningStr ∨
      some hannStr = some noneStr ∨ some hannStr = none) ∧
    compute_thd (NDArr.mono []) 48000 1000 5 (some hannStr) 2 none
      = .error invalidNfftMsg := by
  refine ⟨Or.inl rfl, ?_⟩
  unfold compute_thd
  rw [if_pos (Or.inl rfl),
    if_pos (show thdNfft (NDArr.mono []) none = 0 from rfl)]

/-- C4 (amended form): `compute_thd` returns a result record exactly when
the window argument is "hann", the legacy alias "hanning", the explicit
"none" or the Python `None` AND the effective FFT length is nonzero; an
unsupported window aborts with the unsupported-window error, and a valid
window with a zero effective FFT length (an empty signal under a default or
zero `nfft`) aborts with numpy's invalid-FFT-length error -- the only two
aborts of the function. -/
theorem compute_thd_abort_conditions (arr : NDArr) (fs : ℕ) (freq : ℝ) (maxH : ℕ)
    (window : Option String) (bandBins : ℕ) (nfft : Option ℕ) :
    ((∃ r, compute_thd arr fs freq maxH window bandBins nfft = .ok r) ↔
      ((window = some hannStr ∨ window = some hanningStr ∨
        window = some noneStr ∨ window = none) ∧ thdNfft arr nfft ≠ 0)) ∧
    ((¬ (window = some hannStr ∨ window = some hanningStr ∨
        window = some noneStr ∨ window = none)) →
      compute_thd arr fs freq maxH window bandBins nfft
        = .error unsupportedWindowMsg) ∧
    ((window = some hannStr ∨ window = some hanningStr ∨
        window = some noneStr ∨ window = none) → thdNfft arr nfft = 0 →
      compute_thd arr fs freq maxH window bandBins nfft
        = .error invalidNfftMsg) := by
  unfold compute_thd
  by_cases h1 : window = some hannStr ∨ window = some hanningStr
  · rw [if_pos h1]
    by_cases hz : thdNfft arr nfft = 0
    · rw [if_pos hz]
      refine ⟨iff_of_false (fun hr => by exact Except.noConfusion hr.choose_spec)
        (fun hc => hc.2 hz), fun hn => absurd (by tauto) hn, fun _ _ => rfl⟩
    · rw [if_neg hz]
      refine ⟨iff_of_true ⟨_, rfl⟩ ⟨by tauto, hz⟩, fun hn => absurd (by tauto) hn,
        fun _ hz2 => absurd hz2 hz⟩
  · rw [if_neg h1]
    by_cases h2 : window = none ∨ window = some noneStr
    · rw [if_pos h2]
      have hw : window = some hannStr ∨ window = some hanningStr ∨
          window = some noneStr ∨ window = none := by tauto
      by_cases hz : thdNfft arr nfft = 0
      · rw [if_pos hz]
        refine ⟨iff_of_false (fun hr => by exact Except.noConfusion hr.choose_spec)
          (fun hc => hc.2 hz), fun hn => absurd hw hn, fun _ _ => rfl⟩
      · rw [if_neg hz]
        refine ⟨iff_of_true ⟨_, rfl⟩ ⟨hw, hz⟩, fun hn => absurd hw hn,
          fun _ hz2 => absurd hz2 hz⟩
    · rw [if_neg h2]
      refine ⟨iff_of_false (fun hr => by exact Except.noConfusion hr.choose_spec)
        (fun hc => ?_), fun _ => rfl, fun hw _ => ?_⟩
      · rcases hc.1 with h | h | h | h
        · exact h1 (Or.inl h)
        · exact h1 (Or.inr h)
        · exact h2 (Or.inr h)
        · exact h2 (Or.inl h)
      · rcases hw with h | h | h | h
        · exact absurd (Or.inl h) h1
        · exact absurd (Or.inr h) h1
        · exact absurd (Or.inr h) h2
        · exact absurd (Or.inl h) h2


/-- The fundamental magnitude of a THD call, 0 on an aborted call. -/
def fmOf : Except String ThdResult → ℝ
  | .ok r => r.fundamental_mag
  | .error _ => 0

/-- The stereo buffer of the channel-reduction counterexample: three frames,
channel 0 silent, channel 1 constant 6. -/
def cexStereo : NDArr := NDArr.multi [[0, 6], [0, 6], [0, 6]]

lemma cex_sig0_stereo :
    chan0 (subAll cexStereo (npMeanAll cexStereo)) = [-3, -3, -3] := by
  have hmean : npMeanAll cexStereo = 3 := by
    norm_num [npMeanAll, cexStereo]
  rw [hmean]
  norm_num [subAll, chan0, cexStereo]

lemma cex_hanning_three : hanning 3 = [0, 1, 0] := by
  unfold hanning
  rw [if_neg (by norm_num)]
  have h0 : 2 * Real.pi * ((0 : ℕ) : ℝ) / (((3 : ℕ) : ℝ) - 1) = 0 := by
    norm_num
  have h1 : 2 * Real.pi * ((1 : ℕ) : ℝ) / (((3 : ℕ) : ℝ) - 1) = Real.pi := by
    push_cast
    ring
  have h2 : 2 * Real.pi * ((2 : ℕ) : ℝ) / (((3 : ℕ) : ℝ) - 1) = 2 * Real.pi := by
    push_cast
    ring
  norm_num [List.range_succ, h0, h1, h2, Real.cos_pi, Real.cos_two_pi]

lemma abs_real_mul_unit (r x : ℝ) :
    Complex.abs ((r : ℂ) * Complex.exp ((x : ℂ) * Complex.I)) = |r| := by
  rw [map_mul, Complex.abs_ofReal, Complex.abs_exp_ofReal_mul_I, mul_one]

lemma cex_mag_stereo :
    (rfft [(0 : ℝ), -3, 0] 3).map Complex.abs = [3, 3] := by
  unfold rfft
  have hxp : ([(0 : ℝ), -3, 0].take 3 ++ List.replicate (3 - [(0 : ℝ), -3, 0].length) 0)
      = [0, -3, 0] := by
    norm_num [List.take]
  rw [hxp]
  simp only [List.range_succ, List.range_zero, List.map_append, List.map_cons, List.map_nil,
    List.nil_append, List.cons_append, List.sum_cons, List.sum_nil, List.getD_cons_zero,
    List.getD_cons_succ]
  norm_num
  rw [show (-(2 * (Real.pi : ℂ)) / 3) = ((-(2 * Real.pi) / 3 : ℝ) : ℂ) by push_cast; ring]
  exact Complex.abs_exp_ofReal_mul_I _

lemma cex_fm_stereo :
    (thdMain cexStereo 3 1 2 (some hannStr) 2 none).fundamental_mag
      = Real.sqrt (9 + 1e-24) := by
  unfold thdMain
  rw [cex_sig0_stereo]
  dsimp only
  rw [if_pos (Or.inl rfl), show ([(-3 : ℝ), -3, -3]).length = 3 by norm_num,
    cex_hanning_three]
  rw [show List.zipWith (fun a b => a * b) [(-3 : ℝ), -3, -3] [0, 1, 0] = [0, -3, 0] by
    norm_num [List.zipWith]]
  rw [cex_mag_stereo]
  rw [show rfftfreq 3 3 = [0, 1] by norm_num [rfftfreq, List.range_succ]]
  rw [show argminDist [(0 : ℝ), 1] 1 = 1 by norm_num [argminDist, argminL, listMin]]
  norm_num [sumSlice]

lemma cex_fm_mono :
    (thdMain (NDArr.mono (chan0 cexStereo)) 3 1 2 (some hannStr) 2 none).fundamental_mag
      = Real.sqrt 1e-24 := by
  have hch : chan0 cexStereo = [0, 0, 0] := by
    norm_num [chan0, cexStereo]
  unfold thdMain
  rw [hch]
  rw [show chan0 (subAll (NDArr.mono [(0 : ℝ), 0, 0])
      (npMeanAll (NDArr.mono [(0 : ℝ), 0, 0]))) = [0, 0, 0] by
    norm_num [subAll, chan0, npMeanAll]]
  dsimp only
  rw [if_pos (Or.inl rfl), show ([(0 : ℝ), 0, 0]).length = 3 by norm_num,
    cex_hanning_three]
  rw [show List.zipWith (fun a b => a * b) [(0 : ℝ), 0, 0] [0, 1, 0] = [0, 0, 0] by
    norm_num [List.zipWith]]
  rw [show (rfft [(0 : ℝ), 0, 0] 3).map Complex.abs = [0, 0] by
    unfold rfft
    norm_num [List.range_succ, List.take]]
  rw [show rfftfreq 3 3 = [0, 1] by norm_num [rfftfreq, List.range_succ]]
  rw [show argminDist [(0 : ℝ), 1] 1 = 1 by norm_num [argminDist, argminL, listMin]]
  norm_num [sumSlice]

/-- C5 (counterexample): `compute_thd` on the stereo buffer with silent
channel 0 and constant channel 1 differs from `compute_thd` on channel 0
alone: the DC mean is taken over both channels before the reduction, so the
second channel shifts channel 0 and leaks through the Hann window into the
fundamental band (`fundamental_mag` is `sqrt(9 + 1e-24)` against
`sqrt(1e-24)`). -/
theorem compute_thd_stereo_cex :
    compute_thd cexStereo 3 1 2 (some hannStr) 2 none
      ≠ compute_thd (NDArr.mono (chan0 cexStereo)) 3 1 2 (some hannStr) 2 none := by
  intro h
  have hfm : fmOf (compute_thd cexStereo 3 1 2 (some hannStr) 2 none)
      = fmOf (compute_thd (NDArr.mono (chan0 cexStereo)) 3 1 2 (some hannStr) 2 none) := by
    rw [h]
  unfold compute_thd at hfm
  rw [if_pos (Or.inl rfl), if_pos (Or.inl rfl),
    if_neg (show ¬thdNfft cexStereo none = 0 from by
      rw [show thdNfft cexStereo none = 3 from rfl]
      norm_num),
    if_neg (show ¬thdNfft (NDArr.mono (chan0 cexStereo)) none = 0 from by
      rw [show thdNfft (NDArr.mono (chan0 cexStereo)) none = 3 from rfl]
      norm_num)] at hfm
  have hfm2 : Real.sqrt (9 + 1e-24) = Real.sqrt 1e-24 := by
    rw [← cex_fm_stereo, ← cex_fm_mono]
    exact hfm
  have h9 : (9 : ℝ) + 1e-24 = 1e-24 := by
    have := (Real.sqrt_inj (by norm_num) (by norm_num)).mp hfm2
    exact this
  norm_num at h9

/-- C5 (amended form): `compute_thd` reduces a multi-channel buffer to
channel 0 only after subtracting the global DC mean over all channels; when
the global mean agrees with channel 0's own mean (so the DC step is
indifferent), the stereo analysis equals the mono analysis of channel 0, and
in general the second channel influences the result only through that mean. -/
theorem compute_thd_reduces_to_channel0 (rows : List (List ℝ)) (fs : ℕ)
    (freq : ℝ) (maxH : ℕ) (window : Option String) (bandBins : ℕ)
    (nfft : Option ℕ)
    (hrows : List.Forall (fun r => r ≠ []) rows)
    (hmean : npMeanAll (NDArr.multi rows)
      = npMeanAll (NDArr.mono (chan0 (NDArr.multi rows)))) :
    compute_thd (NDArr.multi rows) fs freq maxH window bandBins nfft
      = compute_thd (NDArr.mono (chan0 (NDArr.multi rows))) fs freq maxH window bandBins nfft := by
  have key : chan0 (subAll (NDArr.multi rows) (npMeanAll (NDArr.multi rows)))
      = chan0 (subAll (NDArr.mono (chan0 (NDArr.multi rows)))
          (npMeanAll (NDArr.mono (chan0 (NDArr.multi rows))))) := by
    rw [← hmean]
    show (rows.map (fun r => r.map (fun v => v - npMeanAll (NDArr.multi rows)))).map
        (fun r => r.headD 0)
      = (rows.map (fun r => r.headD 0)).map (fun v => v - npMeanAll (NDArr.multi rows))
    rw [List.map_map, List.map_map]
    rw [List.forall_iff_forall_mem] at hrows
    refine List.map_congr_left (fun r hr => ?_)
    rcases r with _ | ⟨a, t⟩
    · exact absurd rfl (hrows [] hr)
    · rfl
  have hMain : thdMain (NDArr.multi rows) fs freq maxH window bandBins nfft
      = thdMain (NDArr.mono (chan0 (NDArr.multi rows))) fs freq maxH window bandBins nfft := by
    unfold thdMain
    rw [key]
  have hN : thdNfft (NDArr.multi rows) nfft
      = thdNfft (NDArr.mono (chan0 (NDArr.multi rows))) nfft := by
    unfold thdNfft
    rw [key]
  unfold compute_thd
  rw [hN]
  split_ifs <;> first | rw [hMain] | rfl

/-- Witness for `compute_thd_reduces_to_channel0`: one frame `[1, 1]`, whose
global mean 1 equals channel 0's mean. -/
theorem compute_thd_reduces_to_channel0_witness :
    List.Forall (fun r => r ≠ []) [[(1 : ℝ), 1]] ∧
    npMeanAll (NDArr.multi [[(1 : ℝ), 1]])
      = npMeanAll (NDArr.mono (chan0 (NDArr.multi [[(1 : ℝ), 1]]))) ∧
    compute_thd (NDArr.multi [[(1 : ℝ), 1]]) 4 1 2 (some hannStr) 2 none
      = compute_thd (NDArr.mono (chan0 (NDArr.multi [[(1 : ℝ), 1]]))) 4 1 2 (some hannStr) 2 none :=
  ⟨by simp, by norm_num [npMeanAll, chan0],
    compute_thd_reduces_to_channel0 [[(1 : ℝ), 1]] 4 1 2 (some hannStr) 2 none
      (by simp) (by norm_num [npMeanAll, chan0])⟩


lemma sqrt_eps : Real.sqrt 1e-12 = 1e-6 := by
  rw [show (1e-12 : ℝ) = (1e-6) ^ 2 by norm_num, Real.sqrt_sq (by norm_num)]

lemma abs_sub_one_of_sq (S A B : ℝ) (hB : 0 < B) (hSnn : 0 ≤ S) (hsq : S ^ 2 = A / B) :
    |S - 1| ≤ |A - B| / B := by
  have h1 : |S - 1| * (S + 1) = |S ^ 2 - 1| := by
    rw [show S ^ 2 - 1 = (S - 1) * (S + 1) by ring, abs_mul,
      abs_of_nonneg (by linarith : (0 : ℝ) ≤ S + 1)]
  have h2 : |S - 1| ≤ |S ^ 2 - 1| := by
    calc |S - 1| = |S - 1| * 1 := (mul_one _).symm
    _ ≤ |S - 1| * (S + 1) := mul_le_mul_of_nonneg_left (by linarith) (abs_nonneg _)
    _ = |S ^ 2 - 1| := h1
  have h3 : S ^ 2 - 1 = (A - B) / B := by
    rw [hsq]
    field_simp
  rw [h3, abs_div, abs_of_pos hB] at h2
  exact h2

lemma gm_scale_bound (m k : ℝ) (hm : 0 < m) (hk : 0 < k) :
    |k * (Real.sqrt (m + 1e-12) / Real.sqrt (k ^ 2 * m + 1e-12)) - 1|
      ≤ |k ^ 2 - 1| * 1e-12 / (k ^ 2 * m + 1e-12) := by
  have hB : (0 : ℝ) < k ^ 2 * m + 1e-12 := by positivity
  have hA : (0 : ℝ) < k ^ 2 * (m + 1e-12) := by positivity
  have hS : k * (Real.sqrt (m + 1e-12) / Real.sqrt (k ^ 2 * m + 1e-12))
      = Real.sqrt (k ^ 2 * (m + 1e-12)) / Real.sqrt (k ^ 2 * m + 1e-12) := by
    rw [Real.sqrt_mul (sq_nonneg k), Real.sqrt_sq hk.le]
    ring
  have hsq : (k * (Real.sqrt (m + 1e-12) / Real.sqrt (k ^ 2 * m + 1e-12))) ^ 2
      = (k ^ 2 * (m + 1e-12)) / (k ^ 2 * m + 1e-12) := by
    rw [hS, div_pow, Real.sq_sqrt hA.le, Real.sq_sqrt hB.le]
  have := abs_sub_one_of_sq _ _ _ hB (by positivity) hsq
  calc |k * (Real.sqrt (m + 1e-12) / Real.sqrt (k ^ 2 * m + 1e-12)) - 1|
      ≤ |k ^ 2 * (m + 1e-12) - (k ^ 2 * m + 1e-12)| / (k ^ 2 * m + 1e-12) := this
  _ = |k ^ 2 - 1| * 1e-12 / (k ^ 2 * m + 1e-12) := by
      rw [show k ^ 2 * (m + 1e-12) - (k ^ 2 * m + 1e-12) = (k ^ 2 - 1) * 1e-12 by ring,
        abs_mul, show |(1e-12 : ℝ)| = 1e-12 by norm_num]

lemma gm_db_bound (m k : ℝ) (hm : 0 < m) (hk : 0 < k) :
    |20 * Real.logb 10 (Real.sqrt (k ^ 2 * m + 1e-12) / Real.sqrt (m + 1e-12) + 1e-12)
        - 20 * Real.logb 10 k|
      ≤ (20 / Real.log 10) * (1e-12 / (k ^ 2 * m) + 1e-12 / k + 1e-12 / m) := by
  have hB : (0 : ℝ) < k ^ 2 * m + 1e-12 := by positivity
  have hMe : (0 : ℝ) < m + 1e-12 := by positivity
  have hA : (0 : ℝ) < k ^ 2 * (m + 1e-12) := by positivity
  have hlog10 : (0 : ℝ) < Real.log 10 := Real.log_pos (by norm_num)
  set s : ℝ := Real.sqrt ((k ^ 2 * m + 1e-12) / (k ^ 2 * (m + 1e-12))) with hsdef
  have hspos : 0 < s := Real.sqrt_pos.mpr (by positivity)
  have hsplit : Real.sqrt (k ^ 2 * m + 1e-12) / Real.sqrt (m + 1e-12) / k = s := by
    rw [hsdef, Real.sqrt_div hB.le, Real.sqrt_mul (sq_nonneg k), Real.sqrt_sq hk.le]
    rw [div_div]
    ring_nf
  have hT : (0 : ℝ) < Real.sqrt (k ^ 2 * m + 1e-12) / Real.sqrt (m + 1e-12) + 1e-12 := by
    positivity
  -- the difference of logs is (20 / log 10) * log ((s*k + eps)/k) = ... * log (s + eps/k)
  have hTk : (Real.sqrt (k ^ 2 * m + 1e-12) / Real.sqrt (m + 1e-12) + 1e-12) / k
      = s + 1e-12 / k := by
    rw [← hsplit]
    field_simp
    ring
  have hdiff : 20 * Real.logb 10 (Real.sqrt (k ^ 2 * m + 1e-12) / Real.sqrt (m + 1e-12) + 1e-12)
      - 20 * Real.logb 10 k
      = (20 / Real.log 10) * Real.log (s + 1e-12 / k) := by
    rw [Real.logb, Real.logb, ← hTk, Real.log_div (ne_of_gt hT) (ne_of_gt hk)]
    field_simp
    ring
  -- bound |s - 1|
  have hsq : s ^ 2 = (k ^ 2 * m + 1e-12) / (k ^ 2 * (m + 1e-12)) := by
    rw [hsdef, Real.sq_sqrt (by positivity)]
  have hs1 : |s - 1| ≤ 1e-12 / (k ^ 2 * m) + 1e-12 / m := by
    have h := abs_sub_one_of_sq s _ _ hA hspos.le hsq
    have hnum : |k ^ 2 * m + 1e-12 - k ^ 2 * (m + 1e-12)| = |1 - k ^ 2| * 1e-12 := by
      rw [show k ^ 2 * m + 1e-12 - k ^ 2 * (m + 1e-12) = (1 - k ^ 2) * 1e-12 by ring,
        abs_mul, show |(1e-12 : ℝ)| = 1e-12 by norm_num]
    rw [hnum] at h
    have habs : |1 - k ^ 2| ≤ 1 + k ^ 2 := by
      calc |1 - k ^ 2| ≤ |(1 : ℝ)| + |k ^ 2| := abs_sub _ _
      _ = 1 + k ^ 2 := by rw [abs_one, abs_of_nonneg (sq_nonneg k)]
    have step : |s - 1| ≤ (1 + k ^ 2) * 1e-12 / (k ^ 2 * (m + 1e-12)) := by
      refine h.trans ?_
      gcongr
    refine step.trans ?_
    have hsplit2 : (1 + k ^ 2) * 1e-12 / (k ^ 2 * (m + 1e-12))
        = 1e-12 / (k ^ 2 * (m + 1e-12)) + 1e-12 / (m + 1e-12) := by
      field_simp
      ring
    rw [hsplit2]
    have h1 : 1e-12 / (k ^ 2 * (m + 1e-12)) ≤ 1e-12 / (k ^ 2 * m) := by
      gcongr
      linarith
    have h2 : 1e-12 / (m + 1e-12) ≤ 1e-12 / m := by
      gcongr
      linarith
    linarith
  -- inverse-side bound
  have hsinv : |s⁻¹ - 1| ≤ 1e-12 / (k ^ 2 * m) + 1e-12 / m := by
    have hsqinv : (s⁻¹) ^ 2 = (k ^ 2 * (m + 1e-12)) / (k ^ 2 * m + 1e-12) := by
      rw [inv_pow, hsq, inv_div]
    have h := abs_sub_one_of_sq s⁻¹ _ _ hB (by positivity) hsqinv
    have hnum : |k ^ 2 * (m + 1e-12) - (k ^ 2 * m + 1e-12)| = |k ^ 2 - 1| * 1e-12 := by
      rw [show k ^ 2 * (m + 1e-12) - (k ^ 2 * m + 1e-12) = (k ^ 2 - 1) * 1e-12 by ring,
        abs_mul, show |(1e-12 : ℝ)| = 1e-12 by norm_num]
    rw [hnum] at h
    have habs : |k ^ 2 - 1| ≤ k ^ 2 + 1 := by
      calc |k ^ 2 - 1| ≤ |k ^ 2| + |(1 : ℝ)| := abs_sub _ _
      _ = k ^ 2 + 1 := by rw [abs_one, abs_of_nonneg (sq_nonneg k)]
    have hkm : (0 : ℝ) < k ^ 2 * m := by positivity
    have step : |s⁻¹ - 1| ≤ (k ^ 2 + 1) * 1e-12 / (k ^ 2 * m + 1e-12) := by
      refine h.trans ?_
      gcongr
    refine step.trans ?_
    have hsplit2 : (k ^ 2 + 1) * 1e-12 / (k ^ 2 * m + 1e-12)
        = k ^ 2 * 1e-12 / (k ^ 2 * m + 1e-12) + 1e-12 / (k ^ 2 * m + 1e-12) := by
      field_simp
      ring
    rw [hsplit2]
    have h1 : k ^ 2 * 1e-12 / (k ^ 2 * m + 1e-12) ≤ k ^ 2 * 1e-12 / (k ^ 2 * m) := by
      gcongr
      linarith
    have h1e : k ^ 2 * 1e-12 / (k ^ 2 * m) = 1e-12 / m := by
      rw [show k ^ 2 * m = k ^ 2 * m from rfl]
      field_simp
      ring
    have h2 : 1e-12 / (k ^ 2 * m + 1e-12) ≤ 1e-12 / (k ^ 2 * m) := by
      gcongr
      linarith
    rw [h1e] at h1
    linarith
  -- assemble
  rw [hdiff, abs_mul, abs_of_pos (by positivity : (0 : ℝ) < 20 / Real.log 10)]
  have hδ : (0 : ℝ) < 1e-12 / k := by positivity
  have hx : (0 : ℝ) < s + 1e-12 / k := by positivity
  have hub : Real.log (s + 1e-12 / k) ≤ 1e-12 / (k ^ 2 * m) + 1e-12 / k + 1e-12 / m := by
    have h1 : Real.log (s + 1e-12 / k) ≤ s + 1e-12 / k - 1 :=
      Real.log_le_sub_one_of_pos hx
    have h2 : s - 1 ≤ |s - 1| := le_abs_self _
    linarith [hs1]
  have hlb : -(1e-12 / (k ^ 2 * m) + 1e-12 / k + 1e-12 / m)
      ≤ Real.log (s + 1e-12 / k) := by
    have h1 : Real.log s ≤ Real.log (s + 1e-12 / k) :=
      Real.log_le_log hspos (by linarith)
    have h2 : Real.log s⁻¹ ≤ s⁻¹ - 1 :=
      Real.log_le_sub_one_of_pos (by positivity)
    have h3 : Real.log s⁻¹ = -Real.log s := Real.log_inv s
    have h4 : s⁻¹ - 1 ≤ |s⁻¹ - 1| := le_abs_self _
    have h5 : -(s⁻¹ - 1) ≤ Real.log s := by linarith
    have h6 : -(1e-12 / (k ^ 2 * m) + 1e-12 / m) ≤ -(s⁻¹ - 1) := by
      have := hsinv
      have h7 : s⁻¹ - 1 ≤ 1e-12 / (k ^ 2 * m) + 1e-12 / m := h4.trans this
      linarith
    have h8 : (0 : ℝ) < 1e-12 / k := hδ
    linarith
  have habs2 : |Real.log (s + 1e-12 / k)|
      ≤ 1e-12 / (k ^ 2 * m) + 1e-12 / k + 1e-12 / m :=
    abs_le.mpr ⟨hlb, hub⟩
  exact mul_le_mul_of_nonneg_left habs2 (by positivity)


/-! ## Gain matching (`compare.gain_match`) -/

/-- Stable-region index bounds `[int(0.05*n), int(0.95*n))`; the whole range
`[0, n)` when they collapse. -/
def gm_bounds (n : ℕ) : ℕ × ℕ :=
  let s := n / 20
  let e := n * 19 / 20
  if e ≤ s then (0, n) else (s, e)

/-- The stable-region slice of a buffer, using the bounds of length `n`
(`gain_match` slices both buffers with the reference's bounds). -/
def gm_slice (n : ℕ) (l : List ℝ) : List ℝ :=
  (l.drop (gm_bounds n).1).take ((gm_bounds n).2 - (gm_bounds n).1)

/-- The linear gain `rms_ref / max(rms_tgt, 1e-12)` applied by `gain_match`,
with both RMS values floored by the additive 1e-12 inside the square root. -/
def gm_gain (ref target : List ℝ) : ℝ :=
  let refSlice := gm_slice ref.length ref
  let tgtSlice := gm_slice ref.length target
  let rmsRef := Real.sqrt (meanSq refSlice + 1e-12)
  let rmsTgt := Real.sqrt (meanSq tgtSlice + 1e-12)
  rmsRef / max rmsTgt 1e-12

/-- `gain_match(ref, target)` (default stable region 0.05..0.95): the target
scaled by the gain, and the applied gain in dB,
`20*log10(1/gain + 1e-12)`. -/
def gain_match (ref target : List ℝ) : List ℝ × ℝ :=
  (target.map (fun v => v * gm_gain ref target),
   20 * Real.logb 10 (1 / gm_gain ref target + 1e-12))

lemma gm_slice_map (n : ℕ) (l : List ℝ) (f : ℝ → ℝ) :
    gm_slice n (l.map f) = (gm_slice n l).map f := by
  unfold gm_slice
  rw [← List.map_drop, ← List.map_take]

lemma meanSq_map_mul (k : ℝ) (l : List ℝ) :
    meanSq (l.map (fun v => k * v)) = k ^ 2 * meanSq l := by
  unfold meanSq
  rw [List.map_map, List.length_map]
  rw [show ((fun v => v ^ 2) ∘ fun v => k * v) = fun v => k ^ 2 * v ^ 2 from
    funext fun v => by simp only [Function.comp_apply]; ring]
  rw [List.sum_map_mul_left, mul_div_assoc]

/-- The scale-recovery property of `gain_match` on `(x, k*x)`: the returned
buffer is `x` scaled by `k*gain` with `|k*gain - 1|` within the 1e-12 floor
terms of 0, and the reported dB gain is within the floor terms of
`20*log10(k)`. -/
def gainMatchSpec (x : List ℝ) (k : ℝ) : Prop :=
  let tgt := x.map (fun v => k * v)
  let g := gm_gain x tgt
  let m := meanSq (gm_slice x.length x)
  (gain_match x tgt).1 = x.map (fun v => (k * g) * v) ∧
  |k * g - 1| ≤ |k ^ 2 - 1| * 1e-12 / (k ^ 2 * m + 1e-12) ∧
  |(gain_match x tgt).2 - 20 * Real.logb 10 k|
    ≤ (20 / Real.log 10) * (1e-12 / (k ^ 2 * m) + 1e-12 / k + 1e-12 / m)

/-- C3: for every buffer `x` whose stable-region mean square is positive
(non-silent) and every positive scalar `k`, `gain_match (x, k*x)` returns the
target scaled back to `x` up to the 1e-12 floors (`|k*gain - 1|` is bounded
by `|k^2-1| * 1e-12 / (k^2*m + 1e-12)`), and reports a gain in dB equal to
`20*log10(k)` up to floor-sized terms. -/
theorem gain_match_scale_recovery (x : List ℝ) (k : ℝ) (hk : 0 < k)
    (hm : 0 < meanSq (gm_slice x.length x)) : gainMatchSpec x k := by
  unfold gainMatchSpec
  dsimp only
  set m := meanSq (gm_slice x.length x) with hmdef
  have hglen : (x.map (fun v => k * v)).length = x.length := List.length_map _ _
  have htslice : gm_slice x.length (x.map (fun v => k * v))
      = (gm_slice x.length x).map (fun v => k * v) := gm_slice_map _ _ _
  have hms : meanSq (gm_slice x.length (x.map (fun v => k * v))) = k ^ 2 * m := by
    rw [htslice, meanSq_map_mul]
  have hmaxeq : max (Real.sqrt (meanSq (gm_slice x.length (x.map (fun v => k * v))) + 1e-12))
      (1e-12 : ℝ) = Real.sqrt (k ^ 2 * m + 1e-12) := by
    rw [hms]
    refine max_eq_left ?_
    have h1 : Real.sqrt 1e-12 ≤ Real.sqrt (k ^ 2 * m + 1e-12) :=
      Real.sqrt_le_sqrt (by nlinarith [mul_pos (pow_pos hk 2) hm])
    rw [sqrt_eps] at h1
    linarith
  have hg : gm_gain x (x.map (fun v => k * v))
      = Real.sqrt (m + 1e-12) / Real.sqrt (k ^ 2 * m + 1e-12) := by
    unfold gm_gain
    dsimp only
    rw [hmaxeq, ← hmdef]
  refine ⟨?_, ?_, ?_⟩
  · unfold gain_match
    dsimp only
    rw [List.map_map]
    refine List.map_congr_left (fun v _ => ?_)
    simp only [Function.comp]
    ring
  · rw [hg]
    exact gm_scale_bound m k hm hk
  · unfold gain_match
    dsimp only
    rw [hg, one_div_div]
    exact gm_db_bound m k hm hk

/-- Witness for `gain_match_scale_recovery` at `x = [1, 1]`, `k = 2`. -/
theorem gain_match_scale_recovery_witness :
    (0 : ℝ) < 2 ∧ 0 < meanSq (gm_slice ([(1 : ℝ), 1]).length [(1 : ℝ), 1]) ∧
    gainMatchSpec [(1 : ℝ), 1] 2 :=
  ⟨by norm_num, by norm_num [meanSq, gm_slice, gm_bounds],
   gain_match_scale_recovery [(1 : ℝ), 1] 2 (by norm_num)
     (by norm_num [meanSq, gm_slice, gm_bounds])⟩


/-! ## Residual metrics (`compare.residual_metrics`) -/

/-- Stable-core index bounds of `residual_metrics`:
`s = int(0.05*n)`, and `int(0.95*n)` when it exceeds `s`, else `n`. -/
def resBounds (n : ℕ) : ℕ × ℕ :=
  let s := n / 20
  let e := n * 19 / 20
  (s, if s < e then e else n)

/-- The stable core `l[s:e]` of a buffer of length `n`. -/
def resCore (n : ℕ) (l : List ℝ) : List ℝ :=
  (l.drop (resBounds n).1).take ((resBounds n).2 - (resBounds n).1)

/-- `_freq_response_delta(ref, tgt, fs)`: Hann-windowed magnitude spectra of
both cores in dB (1e-12 floored) plus the frequency axis. -/
def freqRespDelta (ref tgt : List ℝ) (fs : ℕ) : List ℝ × List ℝ × List ℝ :=
  let window := hanning ref.length
  let magRef := ((rfft (List.zipWith (fun a b => a * b) ref window) ref.length).map
    Complex.abs).map (fun v => 20 * Real.logb 10 (v + 1e-12))
  let magTgt := ((rfft (List.zipWith (fun a b => a * b) tgt window) ref.length).map
    Complex.abs).map (fun v => 20 * Real.logb 10 (v + 1e-12))
  (rfftfreq ref.length fs, magRef, magTgt)

/-- `_detect_hum_peaks`: the level at the bin nearest each mains-hum
candidate (50 and 60 Hz and their 2x..5x harmonics), in loop order. -/
def detectHumPeaks (freqs mag : List ℝ) : List (ℝ × ℝ) :=
  (([50, 60] : List ℝ).map (fun (base : ℝ) =>
    (List.range' 1 5).map (fun (mul : ℕ) =>
      (base * (mul : ℝ), mag.getD (argminDist freqs (base * (mul : ℝ))) 0)))).flatten

/-- Result record of `residual_metrics`. -/
structure ResidualMetrics where
  residual_rms_dbfs : ℝ
  snr_db : ℝ
  noise_floor_dbfs : ℝ
  thd_ref_db : ℝ
  thd_tgt_db : ℝ
  thd_delta_db : ℝ
  fr_dev_median_db : ℝ
  fr_dev_max_db : ℝ
  hum_peaks : List (ℝ × ℝ)
  clipping_samples : ℕ
  residual : Option (List ℝ)

/-- `residual_metrics(ref, tgt, fs, freq, hmax)`: truncate to the common
length, restrict to the stable core, residual RMS / SNR / noise floor (all
with the 1e-12 floors), THD of both cores and their delta, frequency-response
deviation summarized over the 20 Hz..20 kHz band, hum-candidate levels in the
target spectrum, and the count of target-core samples at or above 0.999. -/
def residual_metrics (ref tgt : List ℝ) (fs : ℕ) (freq : ℝ) (hmax : ℕ)
    (includeResidual : Bool) : ResidualMetrics :=
  let n := min ref.length tgt.length
  let refCore := resCore n (ref.take n)
  let tgtCore := resCore n (tgt.take n)
  let residual := List.zipWith (fun a b => a - b) tgtCore refCore
  let resRms := Real.sqrt (meanSq residual + 1e-12)
  let refRms := Real.sqrt (meanSq refCore + 1e-12)
  let thdRef := thdMain (NDArr.mono refCore) fs freq hmax (some hannStr) 2 none
  let thdTgt := thdMain (NDArr.mono tgtCore) fs freq hmax (some hannStr) 2 none
  let fr := freqRespDelta refCore tgtCore fs
  let frDev := List.zipWith (fun a b => a - b) fr.2.2 fr.2.1
  let frBand := ((fr.1.zip frDev).filter
    (fun p => decide ((20 : ℝ) ≤ p.1 ∧ p.1 ≤ 20000))).map Prod.snd
  { residual_rms_dbfs := 20 * Real.logb 10 (resRms + 1e-12)
    snr_db := 20 * Real.logb 10 (refRms / resRms + 1e-12)
    noise_floor_dbfs := 20 * Real.logb 10 (resRms + 1e-12)
    thd_ref_db := thdRef.thd_db
    thd_tgt_db := thdTgt.thd_db
    thd_delta_db := thdTgt.thd_db - thdRef.thd_db
    fr_dev_median_db := if frBand.length ≠ 0 then npMedian frBand else npMedian frDev
    fr_dev_max_db := if frBand.length ≠ 0 then listMax (frBand.map (fun v => |v|))
      else listMax (frDev.map (fun v => |v|))
    hum_peaks := detectHumPeaks fr.1 fr.2.2
    clipping_samples := (tgtCore.filter (fun v => decide ((0.999 : ℝ) ≤ |v|))).length
    residual := if includeResidual then some residual else none }

lemma zipWith_sub_self (l : List ℝ) :
    List.zipWith (fun a b => a - b) l l = List.replicate l.length 0 := by
  induction l with
  | nil => rfl
  | cons a t ih => simp [List.zipWith, ih, List.replicate]

lemma meanSq_replicate_zero (n : ℕ) : meanSq (List.replicate n (0 : ℝ)) = 0 := by
  unfold meanSq
  rw [List.map_replicate]
  norm_num

/-- The identical-buffers contract of `residual_metrics`: zero clipping, the
residual and noise floor at the 1e-12 epsilon floor (an RMS of exactly 1e-6),
and the SNR equal to `20*log10(refCoreRms/1e-6 + 1e-12)`. -/
def residualIdentSpec (x : List ℝ) (fs : ℕ) (freq : ℝ) : Prop :=
  let r := residual_metrics x x fs freq 5 false
  let core := resCore x.length x
  r.clipping_samples = 0 ∧
  r.residual_rms_dbfs = 20 * Real.logb 10 ((1e-6 : ℝ) + 1e-12) ∧
  r.noise_floor_dbfs = 20 * Real.logb 10 ((1e-6 : ℝ) + 1e-12) ∧
  r.snr_db = 20 * Real.logb 10 (Real.sqrt (meanSq core + 1e-12) / 1e-6 + 1e-12)

/-- C9: for every nonempty buffer whose samples all stay strictly below 0.999
in absolute value, `residual_metrics x x` reports no clipping, residual RMS
and noise floor at the epsilon floor, and an SNR of
`20*log10(core RMS / 1e-6 + 1e-12)`, the representable maximum for that
reference level. -/
theorem residual_metrics_identical (x : List ℝ) (fs : ℕ) (freq : ℝ)
    (hn : 0 < x.length)
    (hcl : List.Forall (fun v => |v| < 0.999) x) :
    residualIdentSpec x fs freq := by
  unfold residualIdentSpec residual_metrics
  dsimp only
  rw [min_self, List.take_length]
  have hres : List.zipWith (fun a b => a - b) (resCore x.length x) (resCore x.length x)
      = List.replicate (resCore x.length x).length 0 := zipWith_sub_self _
  have hrms : Real.sqrt (meanSq (List.zipWith (fun a b => a - b)
      (resCore x.length x) (resCore x.length x)) + 1e-12) = 1e-6 := by
    rw [hres, meanSq_replicate_zero, zero_add, sqrt_eps]
  rw [hrms]
  refine ⟨?_, rfl, rfl, rfl⟩
  have hfil : (resCore x.length x).filter (fun v => decide ((0.999 : ℝ) ≤ |v|)) = [] := by
    rw [List.filter_eq_nil_iff]
    intro a ha
    have hax : a ∈ x :=
      List.mem_of_mem_drop (List.mem_of_mem_take (by simpa [resCore] using ha))
    rw [List.forall_iff_forall_mem] at hcl
    have := hcl a hax
    simp only [decide_eq_true_eq]
    linarith
  rw [hfil]
  rfl

/-- Witness for `residual_metrics_identical` at `x = [1/2, 1/2, 1/2]`. -/
theorem residual_metrics_identical_witness :
    0 < ([(1 / 2 : ℝ), 1 / 2, 1 / 2]).length ∧
    List.Forall (fun v => |v| < 0.999) [(1 / 2 : ℝ), 1 / 2, 1 / 2] ∧
    residualIdentSpec [(1 / 2 : ℝ), 1 / 2, 1 / 2] 48000 1000 := by
  have habs : |(1 / 2 : ℝ)| < 0.999 := by
    rw [abs_of_nonneg (by norm_num : (0 : ℝ) ≤ 1 / 2)]
    norm_num
  have hfa : List.Forall (fun v => |v| < 0.999) [(1 / 2 : ℝ), 1 / 2, 1 / 2] := by
    refine ⟨habs, habs, habs⟩
  exact ⟨by norm_num, hfa,
    residual_metrics_identical [(1 / 2 : ℝ), 1 / 2, 1 / 2] 48000 1000 (by norm_num) hfa⟩


/-! ## Zero-input finiteness (C8) -/

lemma getD_zero_of_all (l : List ℝ) (h : ∀ v ∈ l, v = 0) (j : ℕ) : l.getD j 0 = 0 := by
  rcases lt_or_ge j l.length with hj | hj
  · rw [List.getD_eq_getElem _ _ hj]
    exact h _ (List.getElem_mem hj)
  · exact List.getD_eq_default _ _ hj

lemma zipWith_mul_zero_left (n : ℕ) (l : List ℝ) :
    List.zipWith (fun a b => a * b) (List.replicate n 0) l
      = List.replicate (min n l.length) 0 := by
  induction n generalizing l with
  | zero => simp
  | succ k ih =>
      cases l with
      | nil => simp
      | cons x t =>
          simp only [List.replicate_succ, List.zipWith_cons_cons, ih, List.length_cons,
            Nat.succ_min_succ, zero_mul]

lemma rfft_zero (x : List ℝ) (n : ℕ) (h : ∀ v ∈ x, v = 0) :
    rfft x n = List.replicate (n / 2 + 1) 0 := by
  unfold rfft
  dsimp only
  have hx : ∀ j : ℕ, (x.take n ++ List.replicate (n - x.length) (0 : ℝ)).getD j 0 = 0 := by
    intro j
    refine getD_zero_of_all _ ?_ j
    intro v hv
    rcases List.mem_append.mp hv with hv | hv
    · exact h v (List.mem_of_mem_take hv)
    · exact List.eq_of_mem_replicate hv
  have hmap : ∀ k : ℕ, ((List.range n).map (fun (j : ℕ) =>
      (((x.take n ++ List.replicate (n - x.length) (0 : ℝ)).getD j 0 : ℝ) : ℂ) *
        Complex.exp ((((-2 : ℝ) * Real.pi * j * k / n : ℝ) : ℂ) * Complex.I))).sum
        = 0 := by
    intro k
    have hterm : ∀ j ∈ List.range n,
        (((x.take n ++ List.replicate (n - x.length) (0 : ℝ)).getD j 0 : ℝ) : ℂ) *
          Complex.exp ((((-2 : ℝ) * Real.pi * j * k / n : ℝ) : ℂ) * Complex.I)
          = 0 := by
      intro j _
      rw [hx j]
      push_cast
      ring
    rw [List.map_congr_left hterm, List.map_const', List.sum_replicate, smul_zero]
  rw [List.map_congr_left (fun k _ => hmap k), List.map_const', List.length_range]

lemma set_zero_replicate (m : ℕ) :
    (List.replicate m (0 : ℝ)).set 0 0 = List.replicate m 0 := by
  cases m <;> simp [List.replicate_succ]

lemma sumSlice_replicate_zero (m a b : ℕ) :
    sumSlice (List.replicate m (0 : ℝ)) a b = 0 := by
  unfold sumSlice
  rw [List.drop_replicate, List.take_replicate, List.sum_replicate, smul_zero]

lemma sqrt_1e24 : Real.sqrt 1e-24 = 1e-12 := by
  rw [show (1e-24 : ℝ) = 1e-12 ^ 2 by norm_num, Real.sqrt_sq (by norm_num)]

lemma logb_ten_neg12 : Real.logb 10 ((0 : ℝ) + 1e-12) = -12 := by
  have hlog : Real.log 10 ≠ 0 := ne_of_gt (Real.log_pos (by norm_num))
  rw [zero_add, show (1e-12 : ℝ) = ((10 : ℝ) ^ (12 : ℕ))⁻¹ by norm_num,
    Real.logb, Real.log_inv, Real.log_pow]
  field_simp

lemma logb_ten_inv12 : Real.logb 10 ((1 : ℝ) / 1000000000000) = -12 := by
  have hlog : Real.log 10 ≠ 0 := ne_of_gt (Real.log_pos (by norm_num))
  rw [show (1 : ℝ) / 1000000000000 = ((10 : ℝ) ^ (12 : ℕ))⁻¹ by norm_num,
    Real.logb, Real.log_inv, Real.log_pow]
  field_simp

lemma thdMain_zero (n fs : ℕ) (freq : ℝ) (maxH : ℕ) (w : Option String) (b : ℕ) :
    thdMain (NDArr.mono (List.replicate n (0 : ℝ))) fs freq maxH w b none
      = { fundamental_mag := 1e-12
          harmonics_dbc := (List.range' 2 (maxH - 1)).map (fun (h : ℕ) => (h, -240))
          thd_percent := 0
          thd_ratio := 0
          thd_db := -240
          thdn_ratio := 0
          thdn_db := -240
          freqs := rfftfreq n fs
          spectrum := List.replicate (n / 2 + 1) (-240)
          fs := fs
          fund_freq := freq
          nfft := n
          window := if w = some hanningStr then some hannStr else w
          fund_band_bins := max 1 b } := by
  have hsig : chan0 (subAll (NDArr.mono (List.replicate n (0 : ℝ)))
      (npMeanAll (NDArr.mono (List.replicate n (0 : ℝ)))))
      = List.replicate n (0 : ℝ) := by
    simp [chan0, subAll, npMeanAll, List.sum_replicate, List.map_replicate]
  have hspec : ∀ l : List ℝ,
      rfft (List.zipWith (fun a b => a * b) (List.replicate n (0 : ℝ)) l) n
        = List.replicate (n / 2 + 1) 0 := fun l =>
    rfft_zero _ n (by
      rw [zipWith_mul_zero_left]
      exact fun v hv => List.eq_of_mem_replicate hv)
  have hlog : Real.log 10 ≠ 0 := ne_of_gt (Real.log_pos (by norm_num))
  have hlogb : Real.logb 10 ((1 : ℝ) / 1000000000000) = -12 := by
    rw [show (1 : ℝ) / 1000000000000 = ((10 : ℝ) ^ (12 : ℕ))⁻¹ by norm_num,
      Real.logb, Real.log_inv, Real.log_pow]
    field_simp
  have hsqrt : (Real.sqrt 1000000000000000000000000)⁻¹ = (1 : ℝ) / 1000000000000 := by
    rw [show (1000000000000000000000000 : ℝ) = 1000000000000 ^ 2 by norm_num,
      Real.sqrt_sq (by norm_num)]
    norm_num
  simp only [thdMain, hsig, List.length_replicate]
  rw [hspec]
  norm_num [List.map_replicate, map_zero, set_zero_replicate, sumSlice_replicate_zero,
    List.map_const', List.sum_replicate, logb_ten_neg12, sqrt_1e24, max_def, hlogb, hsqrt]

lemma argminL_lt_length : ∀ l : List ℝ, l ≠ [] → argminL l < l.length
  | [], h => absurd rfl h
  | [_], _ => Nat.one_pos
  | x :: y :: tl, _ => by
      by_cases h : x ≤ listMin (y :: tl)
      · rw [show argminL (x :: y :: tl) = 0 from by rw [argminL, if_pos h]]
        simp
      · rw [show argminL (x :: y :: tl) = argminL (y :: tl) + 1 from by
          rw [argminL, if_neg h]]
        have ih := argminL_lt_length (y :: tl) (by simp)
        simp only [List.length_cons] at ih ⊢
        omega

lemma listMax_zero_of_all : ∀ l : List ℝ, (∀ v ∈ l, v = 0) → listMax l = 0
  | [], _ => rfl
  | [x], h => h x (by simp)
  | x :: y :: tl, h => by
      rw [listMax, h x (by simp),
        listMax_zero_of_all (y :: tl) (fun v hv => h v (List.mem_cons_of_mem _ hv))]
      exact max_self 0

lemma npMedian_zero_of_all (l : List ℝ) (h : ∀ v ∈ l, v = 0) : npMedian l = 0 := by
  have hs : ∀ v ∈ npSort l, v = 0 := fun v hv =>
    h v ((List.perm_insertionSort _ l).mem_iff.mp hv)
  unfold npMedian
  dsimp only
  split_ifs
  · rfl
  · exact getD_zero_of_all _ hs _
  · rw [getD_zero_of_all _ hs, getD_zero_of_all _ hs]
    norm_num

lemma detectHumPeaks_const (freqs mag : List ℝ) (c : ℝ)
    (hmag : mag = List.replicate freqs.length c) (h0 : freqs ≠ []) :
    detectHumPeaks freqs mag = (([50, 60] : List ℝ).map (fun (base : ℝ) =>
      (List.range' 1 5).map (fun (mul : ℕ) => (base * (mul : ℝ), c)))).flatten := by
  unfold detectHumPeaks
  subst hmag
  congr 1
  refine List.map_congr_left (fun base _ => ?_)
  refine List.map_congr_left (fun mul _ => ?_)
  congr 1
  have hidx : argminDist freqs (base * (mul : ℝ)) < freqs.length := by
    have := argminL_lt_length (freqs.map (fun v => |v - base * (mul : ℝ)|))
      (by simpa using h0)
    simpa [argminDist] using this
  rw [List.getD_eq_getElem _ _ (by simpa using hidx), List.getElem_replicate]

lemma resCore_zero (n : ℕ) : resCore n (List.replicate n (0 : ℝ))
    = List.replicate (min ((resBounds n).2 - (resBounds n).1) (n - (resBounds n).1)) 0 := by
  unfold resCore
  rw [List.drop_replicate, List.take_replicate]

lemma residual_metrics_zero (n fs : ℕ) (freq : ℝ) (hmax : ℕ) :
    residual_metrics (List.replicate n (0 : ℝ)) (List.replicate n 0) fs freq hmax false
      = { residual_rms_dbfs := 20 * Real.logb 10 ((1e-6 : ℝ) + 1e-12)
          snr_db := 20 * Real.logb 10 ((1 : ℝ) + 1e-12)
          noise_floor_dbfs := 20 * Real.logb 10 ((1e-6 : ℝ) + 1e-12)
          thd_ref_db := -240
          thd_tgt_db := -240
          thd_delta_db := 0
          fr_dev_median_db := 0
          fr_dev_max_db := 0
          hum_peaks := (([50, 60] : List ℝ).map (fun (base : ℝ) =>
            (List.range' 1 5).map (fun (mul : ℕ) =>
              (base * (mul : ℝ), (-240 : ℝ))))).flatten
          clipping_samples := 0
          residual := none } := by
  unfold residual_metrics
  dsimp only
  simp only [List.length_replicate, min_self, List.take_replicate]
  have hcore : resCore n (List.replicate n (0 : ℝ))
      = List.replicate (min ((resBounds n).2 - (resBounds n).1)
          (n - (resBounds n).1)) 0 := resCore_zero n
  rw [hcore]
  set M := min ((resBounds n).2 - (resBounds n).1) (n - (resBounds n).1) with hMdef
  have hres : List.zipWith (fun a b => a - b) (List.replicate M (0 : ℝ))
      (List.replicate M 0) = List.replicate M 0 := by
    have := zipWith_sub_self (List.replicate M (0 : ℝ))
    rwa [List.length_replicate] at this
  rw [hres]
  have hrms : Real.sqrt (meanSq (List.replicate M (0 : ℝ)) + 1e-12) = 1e-6 := by
    rw [meanSq_replicate_zero, zero_add, sqrt_eps]
  rw [hrms]
  have hthd : thdMain (NDArr.mono (List.replicate M (0 : ℝ))) fs freq hmax
      (some hannStr) 2 none
      = { fundamental_mag := 1e-12
          harmonics_dbc := (List.range' 2 (hmax - 1)).map (fun (h : ℕ) => (h, -240))
          thd_percent := 0
          thd_ratio := 0
          thd_db := -240
          thdn_ratio := 0
          thdn_db := -240
          freqs := rfftfreq M fs
          spectrum := List.replicate (M / 2 + 1) (-240)
          fs := fs
          fund_freq := freq
          nfft := M
          window := if some hannStr = some hanningStr then some hannStr
            else some hannStr
          fund_band_bins := max 1 2 } := thdMain_zero M fs freq hmax (some hannStr) 2
  rw [hthd]
  dsimp only
  have hfr : freqRespDelta (List.replicate M (0 : ℝ)) (List.replicate M 0) fs
      = (rfftfreq M fs, List.replicate (M / 2 + 1) (-240),
          List.replicate (M / 2 + 1) (-240)) := by
    unfold freqRespDelta
    dsimp only
    rw [List.length_replicate]
    have hsp : ∀ l : List ℝ,
        rfft (List.zipWith (fun a b => a * b) (List.replicate M (0 : ℝ)) l) M
          = List.replicate (M / 2 + 1) 0 := fun l =>
      rfft_zero _ M (by
        rw [zipWith_mul_zero_left]
        exact fun v hv => List.eq_of_mem_replicate hv)
    rw [hsp]
    norm_num [List.map_replicate, map_zero, logb_ten_neg12, logb_ten_inv12]
  rw [hfr]
  dsimp only
  have hdev : List.zipWith (fun a b => a - b) (List.replicate (M / 2 + 1) (-240 : ℝ))
      (List.replicate (M / 2 + 1) (-240)) = List.replicate (M / 2 + 1) 0 := by
    have := zipWith_sub_self (List.replicate (M / 2 + 1) (-240 : ℝ))
    rwa [List.length_replicate] at this
  rw [hdev]
  have hband0 : ∀ v ∈ ((List.zip (rfftfreq M fs) (List.replicate (M / 2 + 1) (0 : ℝ))).filter
      (fun p => decide ((20 : ℝ) ≤ p.1 ∧ p.1 ≤ 20000))).map Prod.snd, v = 0 := by
    intro v hv
    rcases List.mem_map.mp hv with ⟨p, hp, hpv⟩
    have hpz := List.of_mem_zip (List.mem_of_mem_filter hp)
    rw [← hpv]
    exact List.eq_of_mem_replicate hpz.2
  have hmed : (if (((List.zip (rfftfreq M fs) (List.replicate (M / 2 + 1) (0 : ℝ))).filter
      (fun p => decide ((20 : ℝ) ≤ p.1 ∧ p.1 ≤ 20000))).map Prod.snd).length ≠ 0 then
        npMedian (((List.zip (rfftfreq M fs) (List.replicate (M / 2 + 1) (0 : ℝ))).filter
          (fun p => decide ((20 : ℝ) ≤ p.1 ∧ p.1 ≤ 20000))).map Prod.snd)
      else npMedian (List.replicate (M / 2 + 1) 0)) = 0 := by
    split_ifs
    · exact npMedian_zero_of_all _ hband0
    · exact npMedian_zero_of_all _ (fun v hv => List.eq_of_mem_replicate hv)
  have hmax' : (if (((List.zip (rfftfreq M fs) (List.replicate (M / 2 + 1) (0 : ℝ))).filter
      (fun p => decide ((20 : ℝ) ≤ p.1 ∧ p.1 ≤ 20000))).map Prod.snd).length ≠ 0 then
        listMax ((((List.zip (rfftfreq M fs) (List.replicate (M / 2 + 1) (0 : ℝ))).filter
          (fun p => decide ((20 : ℝ) ≤ p.1 ∧ p.1 ≤ 20000))).map Prod.snd).map
            (fun v => |v|))
      else listMax ((List.replicate (M / 2 + 1) 0).map (fun v => |v|))) = 0 := by
    split_ifs
    · refine listMax_zero_of_all _ (fun v hv => ?_)
      rcases List.mem_map.mp hv with ⟨w, hw, hwv⟩
      rw [← hwv, hband0 w hw, abs_zero]
    · refine listMax_zero_of_all _ (fun v hv => ?_)
      rcases List.mem_map.mp hv with ⟨w, hw, hwv⟩
      rw [← hwv, List.eq_of_mem_replicate hw, abs_zero]
  rw [hmed, hmax']
  have hfreqlen : (rfftfreq M fs).length = M / 2 + 1 := by
    unfold rfftfreq
    rw [List.length_map, List.length_range]
  have hhum : detectHumPeaks (rfftfreq M fs) (List.replicate (M / 2 + 1) (-240 : ℝ))
      = (([50, 60] : List ℝ).map (fun (base : ℝ) =>
          (List.range' 1 5).map (fun (mul : ℕ) =>
            (base * (mul : ℝ), (-240 : ℝ))))).flatten := by
    refine detectHumPeaks_const _ _ _ (by rw [hfreqlen]) ?_
    refine List.ne_nil_of_length_pos ?_
    rw [hfreqlen]
    omega
  rw [hhum]
  have hclip : (List.replicate M (0 : ℝ)).filter (fun v => decide ((0.999 : ℝ) ≤ |v|))
      = [] := by
    rw [List.filter_eq_nil_iff]
    intro a ha
    rw [List.eq_of_mem_replicate ha]
    simp only [decide_eq_true_eq, abs_zero, not_le]
    norm_num
  rw [hclip]
  norm_num [hannStr, hanningStr]

lemma sum_map_const_sub (c : ℝ) : ∀ l : List ℝ,
    (l.map (fun v => c - v)).sum = l.length * c - l.sum
  | [] => by simp
  | a :: t => by
      simp only [List.map_cons, List.sum_cons, sum_map_const_sub c t, List.length_cons]
      push_cast
      ring

lemma npMean_map_sub (c : ℝ) (l : List ℝ) (h : l ≠ []) :
    npMean (l.map (fun v => c - v)) = c - npMean l := by
  unfold npMean
  rw [List.length_map, sum_map_const_sub]
  have hn : ((l.length : ℕ) : ℝ) ≠ 0 := Nat.cast_ne_zero.mpr (List.length_pos.mpr h).ne'
  field_simp
  ring

lemma zipWith_replicate_left (f : ℝ → ℝ → ℝ) (c : ℝ) : ∀ (n : ℕ) (l : List ℝ),
    List.zipWith f (List.replicate n c) l = (l.take n).map (f c)
  | 0, l => by simp
  | n + 1, [] => by simp
  | n + 1, x :: t => by
      simp only [List.replicate_succ, List.zipWith_cons_cons, List.take_succ_cons,
        List.map_cons, zipWith_replicate_left f c n t]

lemma polyfit1_const_y (xs : List ℝ) (c : ℝ) (h : xs ≠ []) :
    polyfit1 xs (List.replicate xs.length c) = (0, c) := by
  unfold polyfit1
  dsimp only
  have hn : ((xs.length : ℕ) : ℝ) ≠ 0 := Nat.cast_ne_zero.mpr (List.length_pos.mpr h).ne'
  have hybar : (List.replicate xs.length c).sum / ((xs.length : ℕ) : ℝ) = c := by
    rw [List.sum_replicate, nsmul_eq_mul]
    field_simp
  rw [hybar]
  have hsxy : ((xs.zip (List.replicate xs.length c)).map
      (fun p => (p.1 - xs.sum / ((xs.length : ℕ) : ℝ)) * (p.2 - c))).sum = 0 := by
    have hterm : ∀ p ∈ xs.zip (List.replicate xs.length c),
        (p.1 - xs.sum / ((xs.length : ℕ) : ℝ)) * (p.2 - c) = 0 := by
      intro p hp
      rw [List.eq_of_mem_replicate (List.of_mem_zip hp).2]
      ring
    rw [List.map_congr_left hterm, List.map_const', List.sum_replicate, smul_zero]
  rw [hsxy, zero_div]
  norm_num

lemma comp_out_db_zero (L : ℕ) (meta : SteppedMeta) (h36 : meta.amps.length = 36) :
    comp_out_db (List.replicate L (0 : ℝ)) meta = List.replicate 36 (-240) := by
  unfold comp_out_db
  rw [h36]
  simp only [List.drop_replicate, List.take_replicate, List.length_replicate,
    meanSq_replicate_zero, Real.sqrt_zero,
    max_eq_right (by norm_num : (0 : ℝ) ≤ 1e-12)]
  rw [List.map_const', List.length_range]
  norm_num [logb_ten_inv12]

lemma amps_lb (freq : ℝ) (fs : ℕ) :
    ∀ A ∈ (build_stepped_tone freq fs 1).meta.amps, (0.05 : ℝ) ≤ A := by
  intro A hA
  unfold build_stepped_tone at hA
  dsimp only at hA
  rcases List.mem_map.mp hA with ⟨i, _, rfl⟩
  have hge : (0 : ℝ) ≤ (i : ℝ) * ((1 - 0.05) / 35) := by positivity
  linarith

lemma inDb_lb (meta : SteppedMeta) (hA : ∀ A ∈ meta.amps, (0.05 : ℝ) ≤ A) :
    ∀ v ∈ comp_in_db meta, (-40 : ℝ) ≤ v := by
  intro v hv
  rcases List.mem_map.mp hv with ⟨A, hAm, rfl⟩
  have hge := hA A hAm
  have hs2 : Real.sqrt 2 ≤ 1.5 := by
    rw [show (1.5 : ℝ) = Real.sqrt (1.5 ^ 2) from (Real.sqrt_sq (by norm_num)).symm]
    exact Real.sqrt_le_sqrt (by norm_num)
  have hs2pos : (0 : ℝ) < Real.sqrt 2 := Real.sqrt_pos.mpr (by norm_num)
  have hdiv : (1 : ℝ) / 100 ≤ A / Real.sqrt 2 := by
    rw [div_le_div_iff₀ (by norm_num) hs2pos]
    nlinarith
  have hmaxge : (1 : ℝ) / 100 ≤ max (A / Real.sqrt 2) 1e-12 :=
    hdiv.trans (le_max_left _ _)
  have hlog : Real.logb 10 ((1 : ℝ) / 100) ≤ Real.logb 10 (max (A / Real.sqrt 2) 1e-12) :=
    Real.logb_le_logb_of_le (by norm_num) (by norm_num) hmaxge
  have hval : Real.logb 10 ((1 : ℝ) / 100) = -2 := by
    have hlog10 : Real.log 10 ≠ 0 := ne_of_gt (Real.log_pos (by norm_num))
    rw [show (1 : ℝ) / 100 = ((10 : ℝ) ^ (2 : ℕ))⁻¹ by norm_num,
      Real.logb, Real.log_inv, Real.log_pow]
    field_simp
  rw [hval] at hlog
  linarith

lemma compression_curve_zero (fs : ℕ) (freq : ℝ) (L : ℕ) :
    compression_curve (List.replicate L (0 : ℝ)) (build_stepped_tone freq fs 1).meta fs freq
      = ⟨comp_in_db (build_stepped_tone freq fs 1).meta,
         List.replicate 36 (-240),
         -240 - npMean (comp_in_db (build_stepped_tone freq fs 1).meta),
         false, some (-240), 1e12⟩ := by
  set meta := (build_stepped_tone freq fs 1).meta with hmeta
  have h36 : meta.amps.length = 36 := by
    rw [hmeta]
    unfold build_stepped_tone
    dsimp only
    rw [List.length_map, List.length_range]
  have hout : comp_out_db (List.replicate L (0 : ℝ)) meta = List.replicate 36 (-240) :=
    comp_out_db_zero L meta h36
  have hinlen : (comp_in_db meta).length = 36 := by
    unfold comp_in_db
    rw [List.length_map, h36]
  have hinne : comp_in_db meta ≠ [] := by
    intro hc
    rw [hc] at hinlen
    exact absurd hinlen (by norm_num)
  have hlb : ∀ v ∈ comp_in_db meta, (-40 : ℝ) ≤ v :=
    inDb_lb meta (by rw [hmeta]; exact amps_lb freq fs)
  unfold compression_curve
  dsimp only
  rw [hout]
  have hdiff : List.zipWith (fun o i => o - i) (List.replicate 36 (-240 : ℝ))
      (comp_in_db meta) = (comp_in_db meta).map (fun i => -240 - i) := by
    rw [zipWith_replicate_left, ← hinlen, List.take_length]
  rw [hdiff]
  have hfit : polyfit1 (comp_in_db meta) (List.replicate 36 (-240 : ℝ)) = (0, -240) := by
    rw [← hinlen]
    exact polyfit1_const_y _ _ hinne
  rw [hfit]
  rw [if_neg (fun hc => absurd hc.1 (by norm_num))]
  have hpts : ((comp_in_db meta).zip (List.replicate 36 (-240 : ℝ))).filter
      (fun p => decide (p.2 - p.1 < -0.5))
      = (comp_in_db meta).zip (List.replicate 36 (-240)) := by
    rw [List.filter_eq_self]
    intro p hp
    have h2 := List.eq_of_mem_replicate (List.of_mem_zip hp).2
    have h1 := hlb p.1 (List.of_mem_zip hp).1
    rw [h2]
    simp only [decide_eq_true_eq]
    linarith
  rw [hpts]
  have hptslen : ¬ (((comp_in_db meta).zip (List.replicate 36 (-240 : ℝ))).length < 2) := by
    rw [List.length_zip, hinlen, List.length_replicate, min_self]
    norm_num
  rw [if_neg hptslen]
  have hfst : ((comp_in_db meta).zip (List.replicate 36 (-240 : ℝ))).map Prod.fst
      = comp_in_db meta :=
    List.map_fst_zip _ _ (by rw [hinlen, List.length_replicate])
  have hsnd : ((comp_in_db meta).zip (List.replicate 36 (-240 : ℝ))).map Prod.snd
      = List.replicate 36 (-240) :=
    List.map_snd_zip _ _ (by rw [hinlen, List.length_replicate])
  rw [hfst, hsnd, hfit, npMean_map_sub _ _ hinne]
  norm_num

lemma compute_thd_zero (n fs : ℕ) (freq : ℝ) (maxH : ℕ) (hn : n ≠ 0) :
    compute_thd (NDArr.mono (List.replicate n (0 : ℝ))) fs freq maxH
        (some hannStr) 2 none
      = .ok { fundamental_mag := 1e-12
              harmonics_dbc := (List.range' 2 (maxH - 1)).map (fun (h : ℕ) => (h, -240))
              thd_percent := 0
              thd_ratio := 0
              thd_db := -240
              thdn_ratio := 0
              thdn_db := -240
              freqs := rfftfreq n fs
              spectrum := List.replicate (n / 2 + 1) (-240)
              fs := fs
              fund_freq := freq
              nfft := n
              window := some hannStr
              fund_band_bins := 2 } := by
  have hlen : thdNfft (NDArr.mono (List.replicate n (0 : ℝ))) none = n := by
    unfold thdNfft
    dsimp only
    simp [chan0, subAll]
  unfold compute_thd
  rw [if_pos (Or.inl rfl), if_neg (by rw [hlen]; exact hn), thdMain_zero]
  norm_num

/-- The zero-input contract: on all-zero buffers, `compute_thd`,
`compression_curve` (on the full stepped-tone capture length) and
`residual_metrics` return records whose every numeric field is an explicit
finite value -- every logarithm is evaluated at an argument floored away
from zero by the 1e-12 (or 1e-24) epsilon -- and the only non-finite
markers are the `none` sentinels (`thr_db` is `some`, here, since the fit
is non-degenerate). -/
def zeroInputSpec (n fs : ℕ) (freq : ℝ) (maxH : ℕ) : Prop :=
  compute_thd (NDArr.mono (List.replicate n (0 : ℝ))) fs freq maxH
      (some hannStr) 2 none
    = .ok { fundamental_mag := 1e-12
            harmonics_dbc := (List.range' 2 (maxH - 1)).map (fun (h : ℕ) => (h, -240))
            thd_percent := 0
            thd_ratio := 0
            thd_db := -240
            thdn_ratio := 0
            thdn_db := -240
            freqs := rfftfreq n fs
            spectrum := List.replicate (n / 2 + 1) (-240)
            fs := fs
            fund_freq := freq
            nfft := n
            window := some hannStr
            fund_band_bins := 2 } ∧
  compression_curve (List.replicate (36 * (fs / 4 + fs / 20)) (0 : ℝ))
      (build_stepped_tone freq fs 1).meta fs freq
    = ⟨comp_in_db (build_stepped_tone freq fs 1).meta,
       List.replicate 36 (-240),
       -240 - npMean (comp_in_db (build_stepped_tone freq fs 1).meta),
       false, some (-240), 1e12⟩ ∧
  residual_metrics (List.replicate n (0 : ℝ)) (List.replicate n 0) fs freq maxH false
    = { residual_rms_dbfs := 20 * Real.logb 10 ((1e-6 : ℝ) + 1e-12)
        snr_db := 20 * Real.logb 10 ((1 : ℝ) + 1e-12)
        noise_floor_dbfs := 20 * Real.logb 10 ((1e-6 : ℝ) + 1e-12)
        thd_ref_db := -240
        thd_tgt_db := -240
        thd_delta_db := 0
        fr_dev_median_db := 0
        fr_dev_max_db := 0
        hum_peaks := (([50, 60] : List ℝ).map (fun (base : ℝ) =>
          (List.range' 1 5).map (fun (mul : ℕ) =>
            (base * (mul : ℝ), (-240 : ℝ))))).flatten
        clipping_samples := 0
        residual := none }

/-- C8: on an all-zero input buffer, every numeric field of the results of
`compute_thd`, `compression_curve` and `residual_metrics` is a finite,
explicitly computed value (dB floors at -240 from the 1e-12 epsilons), the
only `Option` sentinels being the designed NaN carriers; the hypotheses
keep every averaged slice nonempty, the regime in which the exact model
and the float code agree. -/
theorem zero_input_finite (n fs : ℕ) (freq : ℝ) (maxH : ℕ)
    (hn : 0 < n) (hfs : 4 ≤ fs) :
    zeroInputSpec n fs freq maxH :=
  ⟨compute_thd_zero n fs freq maxH hn.ne',
   compression_curve_zero fs freq _,
   residual_metrics_zero n fs freq maxH⟩

/-- Witness for `zero_input_finite` at `n = 2`, `fs = 4`. -/
theorem zero_input_finite_witness :
    (0 : ℕ) < 2 ∧ (4 : ℕ) ≤ 4 ∧ zeroInputSpec 2 4 1 2 :=
  ⟨by norm_num, by norm_num, zero_input_finite 2 4 1 2 (by norm_num) (by norm_num)⟩


end
